import Mathlib

/-!
# E20 processor and cache simulator (`e20_sim_cache.cpp`)

A shallow embedding of the cache hierarchy model, of `simulate_cache_access`
and of the fetch/decode/execute loop of `run_e20_simulator`, followed by the
properties proved about them.

Conventions of the embedding:
* a `uint16_t` is a `Nat`; every assignment that narrows an `int` result to
  `uint16_t` is written with an explicit `% 65536` (or `toU16` from `Int`);
* an `int` is an `Int`; signed overflow, division by zero, an out-of-range
  `operator[]` and `erase(begin())` on an empty vector have no defined
  behaviour in the source and make the embedded function return `none`;
* text written by `print_log_entry` is modelled by the record of its arguments.
-/

set_option linter.dupNamespace false

namespace E20

/-! ## Constants (lines 20-22) -/

/-- Number of registers, `NUM_REGS = 8`. -/
def NUM_REGS : Nat := 8

/-- Number of memory cells, `MEM_SIZE = 1<<13`. -/
def MEM_SIZE : Nat := 8192

/-- Number of register values, `REG_SIZE = 1<<16`. -/
def REG_SIZE : Nat := 65536

/-- Largest value of a 32-bit `int`. -/
def INT_MAX : Int := 2147483647

/-- Smallest value of a 32-bit `int`. -/
def INT_MIN : Int := -2147483648

/-- Conversion of an `int` to `uint16_t`: the residue modulo `2^16`. -/
def toU16 (x : Int) : Nat := (x % 65536).toNat

/-- Product of two `int`s; `none` on signed overflow. -/
def int_mul (a b : Int) : Option Int :=
  if INT_MIN ≤ a * b ∧ a * b ≤ INT_MAX then some (a * b) else none

/-- Quotient of two `int`s, truncated toward zero; `none` on division by
zero and on `INT_MIN / -1`. -/
def int_div (a b : Int) : Option Int :=
  if b = 0 then none
  else if a = INT_MIN ∧ b = -1 then none
  else some (Int.tdiv a b)

/-- Quotient of two promoted `uint16_t` values, stored in a `uint16_t`;
`none` on division by zero. -/
def u16_div (a b : Nat) : Option Nat :=
  if b = 0 then none else some ((a / b) % 65536)

/-- Remainder of two promoted `uint16_t` values, stored in a `uint16_t`;
`none` on division by zero. -/
def u16_mod (a b : Nat) : Option Nat :=
  if b = 0 then none else some ((a % b) % 65536)

/-! ## Data model (lines 24-48) -/

/-- A cache line (`struct Block`): `uint16_t tag = -1`, that is `0xFFFF`. -/
structure Block where
  tag : Nat := 65535
deriving DecidableEq, Repr

/-- A row of blocks (`struct Row`), ordered from least to most recently used. -/
structure Row where
  blocks_vec : List Block
  associativity : Int
deriving DecidableEq, Repr

/-- One cache level (`struct Level`). -/
structure Level where
  rows_vec : List Row
  blocksize : Int
deriving DecidableEq, Repr

/-- The cache (`struct Cache`): one or two levels. -/
structure Cache where
  levels_vec : List Level
deriving DecidableEq, Repr

/-- The constructor `Level::Level` (lines 34-41): `num_of_rows` rows, each of
`associativity` default blocks. `vector<Block>(associativity)` with a negative
count throws, which is reported as `none`; with `num_of_rows <= 0` the loop
body never runs. -/
def Level.Level (cache_size num_of_rows associativity blocksize : Int) : Option E20.Level :=
  let _ := cache_size
  if 0 < num_of_rows ∧ associativity < 0 then none
  else some
    { rows_vec := List.replicate num_of_rows.toNat
        { blocks_vec := List.replicate associativity.toNat ({} : Block),
          associativity := associativity },
      blocksize := blocksize }

/-! ## Trace (lines 90-92) -/

/-- One line written by `print_log_entry`: its five arguments. -/
structure LogEntry where
  cache_name : String
  status : String
  pc : Nat
  addr : Nat
  row : Nat
deriving DecidableEq, Repr

/-- The function `print_log_entry`, returning the entry it prints. -/
def print_log_entry (cache_name status : String) (pc addr row : Nat) : LogEntry :=
  { cache_name := cache_name, status := status, pc := pc, addr := addr, row := row }

/-! ## `simulate_cache_access` (lines 148-257) -/

/-- The scan of lines 188-194 (L1) and 224-230 (L2): the index of the first
block whose tag equals `tag`, if there is one. -/
def find_tag : List Block → Nat → Option Nat
  | [], _ => none
  | b :: bs, tag => if b.tag = tag then some 0 else (find_tag bs tag).map (· + 1)

/-- The update of lines 208-219 (L1) and 244-255 (L2) on the blocks of the
addressed row: erase the matched block, or the front block when there is no
match, and push a block carrying `tag`. Erasing `begin()` of an empty vector
is `none`. -/
def update_blocks (blocks : List Block) (tag : Nat) : Option (List Block) :=
  match find_tag blocks tag with
  | some i => some (blocks.eraseIdx i ++ [{ tag := tag }])
  | none =>
    match blocks with
    | [] => none
    | _ :: rest => some (rest ++ [{ tag := tag }])

/-- The status printed by lines 195-205 (L1) and 232-242 (L2). -/
def status_of (is_store_word tag_was_found : Bool) : String :=
  if is_store_word then "SW" else if tag_was_found then "HIT" else "MISS"

/-- Lines 186-219 for level 0 and lines 222-255 for level 1, which are the
same code: scan the row, print the entry, update the row. Returns the new
level, the entry and whether the tag was found. -/
def access_level (cache_name : String) (lvl : Level) (row_num tag index address : Nat)
    (is_store_word : Bool) : Option (Level × LogEntry × Bool) :=
  match lvl.rows_vec[row_num]? with
  | none => none
  | some row =>
    let tag_was_found := (find_tag row.blocks_vec tag).isSome
    let entry := print_log_entry cache_name (status_of is_store_word tag_was_found)
      index address row_num
    match update_blocks row.blocks_vec tag with
    | none => none
    | some blocks =>
      some ({ lvl with rows_vec := lvl.rows_vec.set row_num { row with blocks_vec := blocks } },
        entry, tag_was_found)

/-- Lines 166-173 and 176-183: row number and tag of `address` computed from
the three raw configuration integers of one level. -/
def row_and_tag (address : Nat) (size assoc blocksize : Int) : Option (Nat × Nat) := do
  let lsize := toU16 size
  let lassoc := toU16 assoc
  let lblocksize := toU16 blocksize
  let prod ← int_mul lassoc lblocksize
  let lrows := toU16 (← int_div lsize prod)
  let lblockid ← u16_div address lblocksize
  let lrow_num ← u16_mod lblockid lrows
  let ltag ← u16_div lblockid lrows
  pure (lrow_num, ltag)

/-- Lines 157-163 and 175-184: row number and tag for L2, which stay `0` when
`parts.size()` is not 6. -/
def l2_row_and_tag (address : Nat) (parts : List Int) : Option (Nat × Nat) :=
  if parts.length = 6 then do
    let p3 ← parts[3]?
    let p4 ← parts[4]?
    let p5 ← parts[5]?
    row_and_tag address p3 p4 p5
  else some (0, 0)

/-- The function `simulate_cache_access`: the new cache and the entries
printed, in order. -/
def simulate_cache_access (address index : Nat) (a_cache : Cache) (parts : List Int)
    (is_store_word : Bool) : Option (Cache × List LogEntry) := do
  let p0 ← parts[0]?
  let p1 ← parts[1]?
  let p2 ← parts[2]?
  let (l1row_num, l1tag) ← row_and_tag address p0 p1 p2
  let (l2row_num, l2tag) ← l2_row_and_tag address parts
  let lvl1 ← a_cache.levels_vec[0]?
  let (lvl1new, e1, l1tag_was_found) ←
    access_level "L1" lvl1 l1row_num l1tag index address is_store_word
  let cache1 : Cache := { levels_vec := a_cache.levels_vec.set 0 lvl1new }
  if a_cache.levels_vec.length = 2 ∧ (!l1tag_was_found || is_store_word) then do
    let lvl2 ← cache1.levels_vec[1]?
    let (lvl2new, e2, _) ←
      access_level "L2" lvl2 l2row_num l2tag index address is_store_word
    pure ({ levels_vec := cache1.levels_vec.set 1 lvl2new }, [e1, e2])
  else pure (cache1, [e1])

/-! ## `sign_extend7_func` and `run_e20_simulator` (lines 142-146, 259-356) -/

/-- The function `sign_extend7_func`, returning the new value of `imm7`. -/
def sign_extend7_func (imm7 : Nat) : Nat :=
  if imm7 >>> 6 = 1 then imm7 ||| 65408 else imm7

/-- The state of the loop of `run_e20_simulator`: the variables `regs_arr`,
`pc`, `memory_arr`, `a_cache` and `halt`, and the entries printed so far. -/
structure State where
  regs_arr : Nat → Nat
  pc : Nat
  memory_arr : Nat → Nat
  a_cache : Cache
  halt : Bool
  out : List LogEntry

/-- Assignment `arr[i] = v` to an array seen as a function of the index. -/
def store (arr : Nat → Nat) (i v : Nat) : Nat → Nat :=
  fun j => if j = i then v else arr j

/-- The field `opcode = instruction >> 13` (line 268). -/
def opcode (instruction : Nat) : Nat := instruction >>> 13

/-- The field `bits10_12 = (instruction >> 10) & 7` (line 269), register `rs`. -/
def bits10_12 (instruction : Nat) : Nat := (instruction >>> 10) &&& 7

/-- The field `bits7_9 = (instruction >> 7) & 7` (line 270), register `rt`. -/
def bits7_9 (instruction : Nat) : Nat := (instruction >>> 7) &&& 7

/-- The field `bits4_6 = (instruction >> 4) & 7` (line 271), register `rd`. -/
def bits4_6 (instruction : Nat) : Nat := (instruction >>> 4) &&& 7

/-- The field `bits0_3 = instruction & 15` (line 272), the function code. -/
def bits0_3 (instruction : Nat) : Nat := instruction &&& 15

/-- The variable `bits0_6` as every instruction reads it: `instruction & 127`
(line 273) after `sign_extend7_func(bits0_6)` (line 275). -/
def bits0_6 (instruction : Nat) : Nat := sign_extend7_func (instruction &&& 127)

/-- The field `bits0_12 = instruction & 8191` (line 274), the jump target. -/
def bits0_12 (instruction : Nat) : Nat := instruction &&& 8191

/-- One pass through the body of the `while (!halt)` loop (lines 264-353). -/
def loop_body (parts : List Int) (s : State) : Option State :=
  let index := (s.pc % MEM_SIZE) % 65536
  let instruction := s.memory_arr index
  let regs := s.regs_arr
  if opcode instruction = 0 then
    if bits0_3 instruction = 0 then
      some { s with
        regs_arr := store (store regs (bits4_6 instruction)
          ((regs (bits10_12 instruction) + regs (bits7_9 instruction)) % 65536)) 0 0,
        pc := (s.pc + 1) % 65536 }
    else if bits0_3 instruction = 1 then
      some { s with
        regs_arr := store (store regs (bits4_6 instruction)
          (toU16 ((regs (bits10_12 instruction) : Int) - (regs (bits7_9 instruction) : Int)))) 0 0,
        pc := (s.pc + 1) % 65536 }
    else if bits0_3 instruction = 2 then
      some { s with
        regs_arr := store (store regs (bits4_6 instruction)
          ((regs (bits10_12 instruction) ||| regs (bits7_9 instruction)) % 65536)) 0 0,
        pc := (s.pc + 1) % 65536 }
    else if bits0_3 instruction = 3 then
      some { s with
        regs_arr := store (store regs (bits4_6 instruction)
          ((regs (bits10_12 instruction) &&& regs (bits7_9 instruction)) % 65536)) 0 0,
        pc := (s.pc + 1) % 65536 }
    else if bits0_3 instruction = 4 then
      some { s with
        regs_arr := store (store regs (bits4_6 instruction)
          (if regs (bits10_12 instruction) < regs (bits7_9 instruction) then 1 else 0)) 0 0,
        pc := (s.pc + 1) % 65536 }
    else if bits0_3 instruction = 8 then
      some { s with regs_arr := store regs 0 0, pc := regs (bits10_12 instruction) }
    else
      some { s with regs_arr := store regs 0 0 }
  else if opcode instruction = 1 then
    some { s with
      regs_arr := store (store regs (bits7_9 instruction)
        ((regs (bits10_12 instruction) + bits0_6 instruction) % 65536)) 0 0,
      pc := (s.pc + 1) % 65536 }
  else if opcode instruction = 2 then
    some { s with
      halt := if s.pc = bits0_12 instruction then true else s.halt,
      pc := bits0_12 instruction }
  else if opcode instruction = 3 then
    some { s with
      regs_arr := store regs 7 ((s.pc + 1) % 65536),
      pc := bits0_12 instruction }
  else if opcode instruction = 4 then
    let address := ((regs (bits10_12 instruction) + bits0_6 instruction) % MEM_SIZE) % 65536
    match simulate_cache_access address index s.a_cache parts false with
    | none => none
    | some (cache, entries) =>
      some { s with
        a_cache := cache,
        out := s.out ++ entries,
        regs_arr := store (store regs (bits7_9 instruction) (s.memory_arr address)) 0 0,
        pc := (s.pc + 1) % 65536 }
  else if opcode instruction = 5 then
    let address := ((regs (bits10_12 instruction) + bits0_6 instruction) % MEM_SIZE) % 65536
    match simulate_cache_access address index s.a_cache parts true with
    | none => none
    | some (cache, entries) =>
      some { s with
        a_cache := cache,
        out := s.out ++ entries,
        memory_arr := store s.memory_arr address (regs (bits7_9 instruction)),
        pc := (s.pc + 1) % 65536 }
  else if opcode instruction = 6 then
    if regs (bits10_12 instruction) = regs (bits7_9 instruction) then
      some { s with pc := (s.pc + 1 + bits0_6 instruction) % 65536 }
    else
      some { s with pc := (s.pc + 1) % 65536 }
  else if opcode instruction = 7 then
    some { s with
      regs_arr := store (store regs (bits7_9 instruction)
        (if regs (bits10_12 instruction) < bits0_6 instruction then 1 else 0)) 0 0,
      pc := (s.pc + 1) % 65536 }
  else
    some s

/-- The loop `while (!halt)` of `run_e20_simulator`, with a bound on the
number of passes: `none` when the bound is reached before `halt` is set, or
when a pass has no defined behaviour. -/
def while_loop (parts : List Int) : Nat → State → Option State
  | fuel, s =>
    if s.halt then some s
    else
      match fuel with
      | 0 => none
      | n + 1 =>
        match loop_body parts s with
        | none => none
        | some t => while_loop parts n t

/-- The states after `n` passes through the loop body, whatever `halt` is. -/
def iterate_body (parts : List Int) : Nat → State → Option State
  | 0, s => some s
  | n + 1, s =>
    match loop_body parts s with
    | none => none
    | some t => iterate_body parts n t

/-! ## `main`: the cache it builds and the run it starts (lines 413-478) -/

/-- The level built by `main` from one configuration triple (lines 438-443,
451-462): `rows = size / (assoc * blocksize)` in `int` arithmetic, then the
constructor. -/
def main_level (size assoc blocksize : Int) : Option Level :=
  match int_mul assoc blocksize with
  | none => none
  | some prod =>
    match int_div size prod with
    | none => none
    | some rows => Level.Level size rows assoc blocksize

/-- The cache built by `main` from the parsed configuration `parts`; `none`
also stands for the exit with "Invalid cache config". -/
def main_cache (parts : List Int) : Option Cache :=
  match parts with
  | [L1size, L1assoc, L1blocksize] =>
    match main_level L1size L1assoc L1blocksize with
    | none => none
    | some l1 => some { levels_vec := [l1] }
  | [L1size, L1assoc, L1blocksize, L2size, L2assoc, L2blocksize] =>
    match main_level L1size L1assoc L1blocksize, main_level L2size L2assoc L2blocksize with
    | some l1, some l2 => some { levels_vec := [l1, l2] }
    | _, _ => none
  | _ => none

/-- The state in which `main` enters the loop of `run_e20_simulator` (lines
413-425, 448, 470): `pc = 0`, all registers zero, the loaded memory. -/
def initial_state (memory_arr : Nat → Nat) (a_cache : Cache) : State :=
  { regs_arr := fun _ => 0, pc := 0, memory_arr := memory_arr, a_cache := a_cache,
    halt := false, out := [] }

/-- A valid geometry: positive associativity and block size, at least one
row, and a size that fits the 16-bit variables of `simulate_cache_access`. -/
def valid_geometry (size assoc blocksize : Int) : Prop :=
  0 < assoc ∧ 0 < blocksize ∧ assoc * blocksize ≤ size ∧ size < 65536

instance (size assoc blocksize : Int) : Decidable (valid_geometry size assoc blocksize) := by
  unfold valid_geometry; infer_instance

/-- Number of rows of a level of a given geometry, as the specification words
it: `size / (associativity * blocksize)`. -/
def num_rows (size assoc blocksize : Int) : Nat := (size / (assoc * blocksize)).toNat

/-- A level has the shape of a geometry: the right number of rows, each with
`assoc` blocks. -/
def level_shaped (size assoc blocksize : Int) (lvl : Level) : Prop :=
  lvl.rows_vec.length = num_rows size assoc blocksize ∧
    ∀ row ∈ lvl.rows_vec, row.blocks_vec.length = assoc.toNat

instance (size assoc blocksize : Int) (lvl : Level) :
    Decidable (level_shaped size assoc blocksize lvl) := by
  unfold level_shaped; infer_instance

/-- Row number of an address as section 4.1 of the specification words it:
`rowIndex = (address / blocksize) mod rows`. It is compared with the value
computed by `row_and_tag` in `row_and_tag_valid`. -/
def row_of (address : Nat) (size assoc blocksize : Int) : Nat :=
  (address / blocksize.toNat) % num_rows size assoc blocksize

/-- Tag of an address as section 4.1 of the specification words it:
`tag = (address / blocksize) / rows`. It is compared with the value computed
by `row_and_tag` in `row_and_tag_valid`. -/
def tag_of (address : Nat) (size assoc blocksize : Int) : Nat :=
  (address / blocksize.toNat) / num_rows size assoc blocksize

/-- The tags of the blocks of a row, front (least recently used) first. -/
def row_tags (row : Row) : List Nat := row.blocks_vec.map Block.tag

/-- The tags of the non-empty blocks of a row, front first. -/
def resident_tags (row : Row) : List Nat := (row_tags row).filter (fun t => t ≠ 65535)

/-- The update of a row as section 4.2 of the specification words it, on the
list of tags: a resident tag moves to the back, otherwise the front tag
leaves and the new one enters at the back. It is compared with
`update_blocks` in `update_blocks_tags`. -/
def lru_touch (tags : List Nat) (t : Nat) : List Nat :=
  if t ∈ tags then tags.erase t ++ [t] else tags.tail ++ [t]

/-- The access order "with each tag's most recent position, earlier occurrences
removed", as section 8 of the specification words it: an element is dropped
when it occurs again later. -/
def keep_last : List Nat → List Nat
  | [] => []
  | x :: xs => if x ∈ xs then keep_last xs else x :: keep_last xs

/-- The last `n` elements of a list. -/
def last_n (n : Nat) (l : List Nat) : List Nat := l.drop (l.length - n)

/-- The row contents that the LRU rule prescribes after the tags `tags` were
accessed in this order in a row of `a` blocks: the `a` most recently accessed
distinct tags, least recent first. -/
def lru_order (a : Nat) (tags : List Nat) : List Nat := last_n a (keep_last tags)

/-- The bookkeeping of the LRU proof: the row holds `a - |L|` empty blocks
followed by `L`, where the de-duplicated history is `P ++ L` and `P` is
non-empty only when the row is full. -/
def lru_inv (a : Nat) (tags : List Nat) (K : List Nat) : Prop :=
  ∃ P L, K = P ++ L ∧ tags = List.replicate (a - L.length) 65535 ++ L ∧ L.length ≤ a ∧
    (P ≠ [] → L.length = a)

/-- One call of `simulate_cache_access`: its address, the `pc` index it is
traced with, and whether it is a store. -/
structure Access where
  address : Nat
  index : Nat
  is_store_word : Bool
deriving DecidableEq, Repr

/-- A sequence of calls of `simulate_cache_access`, first call first; the
cache after the last call. -/
def run_accesses (parts : List Int) : List Access → Cache → Option Cache
  | [], c => some c
  | x :: rest, c =>
    match simulate_cache_access x.address x.index c parts x.is_store_word with
    | none => none
    | some (c1, _) => run_accesses parts rest c1

/-- The tags, in access order, of the accesses that map to row `r`. -/
def tags_to_row (size assoc blocksize : Int) (r : Nat) (accs : List Access) : List Nat :=
  (accs.filter (fun x => row_of x.address size assoc blocksize = r)).map
    (fun x => tag_of x.address size assoc blocksize)

/-- The invariant of a level after the accesses `hist`: every row holds the
LRU order of the tags that were mapped to it. -/
def level_inv (size assoc blocksize : Int) (lvl : Level) (hist : List Access) : Prop :=
  lvl.rows_vec.length = num_rows size assoc blocksize ∧
    ∀ r row, lvl.rows_vec[r]? = some row →
      lru_inv assoc.toNat (row_tags row) (keep_last (tags_to_row size assoc blocksize r hist))

/-- The level built by the constructor for a valid geometry, written out; it
is compared with `main_level` in `main_level_valid`. -/
def fresh_level (size assoc blocksize : Int) : Level :=
  { rows_vec := List.replicate (num_rows size assoc blocksize)
      { blocks_vec := List.replicate assoc.toNat ({} : Block), associativity := assoc },
    blocksize := blocksize }

/-- The cache after `main` built it from `parts` and the accesses `accs` ran. -/
def final_cache (parts : List Int) (accs : List Access) : Option Cache :=
  (main_cache parts).bind (run_accesses parts accs)

/-- Row `r` of the first level of a cache. -/
def l1_row (c : Cache) (r : Nat) : Option Row :=
  match c.levels_vec[0]? with
  | none => none
  | some lvl => lvl.rows_vec[r]?

/-- A configuration of one or two valid geometries. -/
def valid_parts (parts : List Int) : Prop :=
  match parts with
  | [s1, a1, b1] => valid_geometry s1 a1 b1
  | [s1, a1, b1, s2, a2, b2] => valid_geometry s1 a1 b1 ∧ valid_geometry s2 a2 b2
  | _ => False

instance (parts : List Int) : Decidable (valid_parts parts) := by
  unfold valid_parts
  split <;> infer_instance

/-- The shape of a cache: for every level, the number of blocks of every row. -/
def cache_shape (c : Cache) : List (List Nat) :=
  c.levels_vec.map (fun lvl => lvl.rows_vec.map (fun row => row.blocks_vec.length))

/-- A cache as `main` builds it and as accesses leave it: one or two levels,
each of a valid geometry taken from `parts` and of the shape of it. -/
def cache_shaped (parts : List Int) (c : Cache) : Prop :=
  match parts, c.levels_vec with
  | [s1, a1, b1], [l1] => valid_geometry s1 a1 b1 ∧ level_shaped s1 a1 b1 l1
  | [s1, a1, b1, s2, a2, b2], [l1, l2] =>
    valid_geometry s1 a1 b1 ∧ level_shaped s1 a1 b1 l1 ∧
      valid_geometry s2 a2 b2 ∧ level_shaped s2 a2 b2 l2
  | _, _ => False

instance (parts : List Int) (c : Cache) : Decidable (cache_shaped parts c) := by
  unfold cache_shaped
  split <;> infer_instance

/-- The instruction word that the next pass of the loop fetches (lines
264-265). -/
def fetch (s : State) : Nat := s.memory_arr ((s.pc % MEM_SIZE) % 65536)

/-- Sign extension of a 7-bit immediate as the glossary of the specification
words it: bit 6 is replicated into bits 7 to 15 of a 16-bit word. It is
compared with `sign_extend7_func` in `sign_extend7_func_eq`. -/
def sext7 (imm : Nat) : Nat := if imm < 64 then imm else imm + 65408

/-- The block at the back (most recently used position) of row `r` of level
`k` of a cache. -/
def mru_block (c : Cache) (k r : Nat) : Option Block :=
  match c.levels_vec[k]? with
  | none => none
  | some lvl =>
    match lvl.rows_vec[r]? with
    | none => none
    | some row => row.blocks_vec.getLast?

/-- Level `lvl` after its row `r` received the blocks `bl`. -/
def with_row (lvl : Level) (r : Nat) (row : Row) (bl : List Block) : Level :=
  { lvl with rows_vec := lvl.rows_vec.set r { row with blocks_vec := bl } }


/-! ## Example programs and states -/

/-- A program image with `addi $1,$0,-1` at 0, `jr $1` at 1 and a `j 8191`
at address 8191, zero elsewhere. -/
def far_jump_image : Nat → Nat :=
  fun a => if a = 0 then 8447 else if a = 1 then 1032 else if a = 8191 then 24575 else 0

/-- A state about to execute `j 3` at address 3. -/
def self_jump_state : State :=
  { regs_arr := fun _ => 0, pc := 3, memory_arr := fun a => if a = 3 then 16387 else 0,
    a_cache := { levels_vec := [fresh_level 64 1 4] }, halt := false, out := [] }

/-- A state about to execute the `j 8191` of `far_jump_image` with
`pc = 65535`. -/
def far_jump_state : State :=
  { regs_arr := fun r => if r = 1 then 65535 else 0, pc := 65535, memory_arr := far_jump_image,
    a_cache := { levels_vec := [fresh_level 64 1 4] }, halt := false, out := [] }

/-- A program image holding `addi $0,$0,5` at address 0. -/
def addi_zero_image : Nat → Nat := fun a => if a = 0 then 8197 else 0

/-- A program image holding `addi $1,$0,63`, `addi $1,$1,37` and
`slti $2,$1,65` at addresses 0, 1 and 2. -/
def slti_image : Nat → Nat :=
  fun a => if a = 0 then 8383 else if a = 1 then 9381 else if a = 2 then 58689 else 0

/-- A program image holding at address 0 the word 5: opcode 0 with the
function code 5, which the opcode table does not list. -/
def unlisted_image : Nat → Nat := fun a => if a = 0 then 5 else 0

/-- A state about to execute `lw $2, 1($1)` at address 0, with 4 in
register 1 and 77 in memory cell 5. -/
def lw_state : State :=
  { regs_arr := fun r => if r = 1 then 4 else 0, pc := 0,
    memory_arr := fun a => if a = 0 then 34049 else if a = 5 then 77 else 0,
    a_cache := { levels_vec := [fresh_level 64 1 4] }, halt := false, out := [] }


/-- A state about to execute `sw $2, 1($1)` at address 0, with 4 in
register 1 and 9 in register 2. -/
def sw_state : State :=
  { regs_arr := fun r => if r = 1 then 4 else if r = 2 then 9 else 0, pc := 0,
    memory_arr := fun a => if a = 0 then 42241 else 0,
    a_cache := { levels_vec := [fresh_level 64 1 4] }, halt := false, out := [] }

/-- A state about to execute `sub $3,$1,$2` at address 0, with 4 in
register 1 and 9 in register 2. -/
def sub_state : State :=
  { regs_arr := fun r => if r = 1 then 4 else if r = 2 then 9 else 0, pc := 0,
    memory_arr := fun a => if a = 0 then 1329 else 0,
    a_cache := { levels_vec := [fresh_level 64 1 4] }, halt := false, out := [] }

/-- A state about to execute `jeq $1,$2,-3` at address 10, with 9 in
registers 1 and 2. -/
def jeq_state : State :=
  { regs_arr := fun r => if r = 1 then 9 else if r = 2 then 9 else 0, pc := 10,
    memory_arr := fun a => if a = 10 then 50557 else 0,
    a_cache := { levels_vec := [fresh_level 64 1 4] }, halt := false, out := [] }


/-- A state about to execute `j 5` at address 0 with 7 in register 0. -/
def dirty_zero_state : State :=
  { regs_arr := fun r => if r = 0 then 7 else 0, pc := 0,
    memory_arr := fun a => if a = 0 then 16389 else 0,
    a_cache := { levels_vec := [fresh_level 64 1 4] }, halt := false, out := [] }

/-! # Properties -/

/-! ## Arithmetic of the row and tag computation -/

theorem toU16_natCast (n : Nat) : toU16 (n : Int) = n % 65536 := by
  unfold toU16; omega

theorem toU16_of_lt (n : Nat) (h : n < 65536) : toU16 (n : Int) = n := by
  unfold toU16; omega

theorem int_mul_natCast (a b : Nat) (h : a * b ≤ 2147483647) :
    int_mul (a : Int) (b : Int) = some ((a * b : Nat) : Int) := by
  have hm : (a : Int) * (b : Int) = ((a * b : Nat) : Int) := by push_cast; rfl
  unfold int_mul
  rw [hm, if_pos]
  unfold INT_MIN INT_MAX
  omega

theorem int_div_natCast (s p : Nat) (h : p ≠ 0) :
    int_div (s : Int) (p : Int) = some ((s / p : Nat) : Int) := by
  unfold int_div
  rw [if_neg (by omega), if_neg (by intro h; have := h.2; omega), Int.ofNat_tdiv]

theorem row_and_tag_nat (address s a b : Nat) (ha : 0 < a) (hb : 0 < b) (hab : a * b ≤ s)
    (hs : s < 65536) :
    row_and_tag address (s : Int) (a : Int) (b : Int)
      = some (((address / b) % 65536) % (s / (a * b)), ((address / b) % 65536) / (s / (a * b))) := by
  have ha' : a ≤ a * b := Nat.le_mul_of_pos_right a hb
  have hb' : b ≤ a * b := Nat.le_mul_of_pos_left b ha
  have hr : 0 < s / (a * b) := Nat.div_pos hab (Nat.mul_pos ha hb)
  have hr' : s / (a * b) ≤ s := Nat.div_le_self _ _
  have hbne : b ≠ 0 := by omega
  have hrne : s / (a * b) ≠ 0 := by omega
  have hrow : (address / b % 65536 % (s / (a * b))) % 65536 = address / b % 65536 % (s / (a * b)) := by
    apply Nat.mod_eq_of_lt
    have := Nat.mod_lt (address / b % 65536) hr
    omega
  have htag : (address / b % 65536 / (s / (a * b))) % 65536 = address / b % 65536 / (s / (a * b)) := by
    apply Nat.mod_eq_of_lt
    have := Nat.div_le_self (address / b % 65536) (s / (a * b))
    have := Nat.mod_lt (address / b) (show 0 < 65536 by norm_num)
    omega
  simp only [row_and_tag, toU16_of_lt a (by omega), toU16_of_lt b (by omega), toU16_of_lt s hs,
    int_mul_natCast a b (by omega), Option.bind_eq_bind, Option.some_bind, Option.pure_def,
    int_div_natCast s (a * b) (by omega), toU16_of_lt (s / (a * b)) (by omega), u16_div, u16_mod,
    if_neg hbne, if_neg hrne, hrow, htag]

theorem num_rows_natCast (s a b : Nat) : num_rows (s : Int) (a : Int) (b : Int) = s / (a * b) := by
  unfold num_rows
  have : (s : Int) / ((a : Int) * (b : Int)) = ((s / (a * b) : Nat) : Int) := by push_cast; rfl
  rw [this]; rfl

theorem num_rows_pos {size assoc blocksize : Int} (h : valid_geometry size assoc blocksize) :
    0 < num_rows size assoc blocksize := by
  obtain ⟨ha, hb, hab, hs⟩ := h
  obtain ⟨a, rfl⟩ : ∃ a : Nat, assoc = a := ⟨assoc.toNat, by omega⟩
  obtain ⟨b, rfl⟩ : ∃ b : Nat, blocksize = b := ⟨blocksize.toNat, by omega⟩
  have hs0 : 0 ≤ size := le_trans (by positivity) hab
  obtain ⟨s, rfl⟩ : ∃ s : Nat, size = s := ⟨size.toNat, by omega⟩
  rw [num_rows_natCast]
  have hab' : a * b ≤ s := by exact_mod_cast hab
  exact Nat.div_pos hab' (Nat.mul_pos (by omega) (by omega))

theorem row_and_tag_valid (address : Nat) {size assoc blocksize : Int}
    (h : valid_geometry size assoc blocksize) (haddr : address < 65536) :
    row_and_tag address size assoc blocksize
      = some (row_of address size assoc blocksize, tag_of address size assoc blocksize) := by
  obtain ⟨ha, hb, hab, hs⟩ := h
  obtain ⟨a, rfl⟩ : ∃ a : Nat, assoc = a := ⟨assoc.toNat, by omega⟩
  obtain ⟨b, rfl⟩ : ∃ b : Nat, blocksize = b := ⟨blocksize.toNat, by omega⟩
  have hs0 : 0 ≤ size := le_trans (by positivity) hab
  obtain ⟨s, rfl⟩ : ∃ s : Nat, size = s := ⟨size.toNat, by omega⟩
  have hab' : a * b ≤ s := by exact_mod_cast hab
  have hq : address / b % 65536 = address / b :=
    Nat.mod_eq_of_lt (lt_of_le_of_lt (Nat.div_le_self _ _) haddr)
  rw [row_and_tag_nat address s a b (by omega) (by omega) hab' (by omega)]
  simp only [row_of, tag_of, num_rows_natCast, Int.toNat_ofNat, hq]

theorem row_of_lt (address : Nat) {size assoc blocksize : Int}
    (h : valid_geometry size assoc blocksize) :
    row_of address size assoc blocksize < num_rows size assoc blocksize :=
  Nat.mod_lt _ (num_rows_pos h)

theorem tag_of_le (address : Nat) (size assoc blocksize : Int) :
    tag_of address size assoc blocksize ≤ address :=
  le_trans (Nat.div_le_self _ _) (Nat.div_le_self _ _)

/-! ## The scan and the update of one row -/


theorem find_tag_eq_none (bl : List Block) (t : Nat) :
    find_tag bl t = none ↔ t ∉ bl.map Block.tag := by
  induction bl with
  | nil => simp [find_tag]
  | cons b bs ih =>
    by_cases hb : b.tag = t
    · simp [find_tag, hb]
    · have hb' : ¬ t = b.tag := fun h => hb h.symm
      simp [find_tag, hb, hb', ih]

theorem find_tag_isSome (bl : List Block) (t : Nat) :
    (find_tag bl t).isSome = decide (t ∈ bl.map Block.tag) := by
  by_cases h : t ∈ bl.map Block.tag
  · have : find_tag bl t ≠ none := fun hn => (find_tag_eq_none bl t).1 hn h
    rw [decide_eq_true h]
    cases hf : find_tag bl t with
    | none => exact absurd hf this
    | some i => rfl
  · rw [(find_tag_eq_none bl t).2 h, decide_eq_false h]; rfl

theorem find_tag_some_erase (bl : List Block) (t i : Nat) (h : find_tag bl t = some i) :
    (bl.eraseIdx i).map Block.tag = (bl.map Block.tag).erase t := by
  induction bl generalizing i with
  | nil => simp [find_tag] at h
  | cons b bs ih =>
    by_cases hb : b.tag = t
    · simp [find_tag, hb] at h
      subst h
      simp [hb]
    · simp only [find_tag, if_neg hb, Option.map_eq_some'] at h
      obtain ⟨j, hj, rfl⟩ := h
      have hbeq : ¬ (b.tag == t) = true := by simpa using hb
      simp [List.erase_cons_tail hbeq, ih j hj]

theorem update_blocks_length (bl bl' : List Block) (t : Nat) (h : update_blocks bl t = some bl') :
    bl'.length = bl.length := by
  unfold update_blocks at h
  cases hf : find_tag bl t with
  | some i =>
    rw [hf] at h
    simp only [Option.some.injEq] at h
    subst h
    have hmem : t ∈ bl.map Block.tag := by
      by_contra hn
      rw [(find_tag_eq_none bl t).2 hn] at hf
      cases hf
    have hlen := congrArg List.length (find_tag_some_erase bl t i hf)
    rw [List.length_map, List.length_erase_of_mem hmem, List.length_map] at hlen
    have hpos : 0 < bl.length := by
      cases bl with
      | nil => simp at hmem
      | cons _ _ => simp
    simp only [List.length_append, List.length_singleton, List.length_map] at hlen ⊢
    omega
  | none =>
    rw [hf] at h
    cases bl with
    | nil => simp at h
    | cons b rest =>
      simp only [Option.some.injEq] at h
      subst h
      simp

theorem update_blocks_tags (bl : List Block) (t : Nat) (hne : bl ≠ []) :
    ∃ bl', update_blocks bl t = some bl' ∧
      bl'.map Block.tag = lru_touch (bl.map Block.tag) t := by
  unfold update_blocks lru_touch
  cases hf : find_tag bl t with
  | some i =>
    have hmem : t ∈ bl.map Block.tag := by
      by_contra hn
      rw [(find_tag_eq_none bl t).2 hn] at hf
      cases hf
    refine ⟨_, rfl, ?_⟩
    rw [if_pos hmem, List.map_append, find_tag_some_erase bl t i hf]
    rfl
  | none =>
    have hmem : t ∉ bl.map Block.tag := (find_tag_eq_none bl t).1 hf
    cases bl with
    | nil => exact absurd rfl hne
    | cons b rest =>
      refine ⟨_, rfl, ?_⟩
      rw [if_neg hmem]
      simp

/-! ## One level, then the whole access -/

theorem access_level_inv (name : String) (lvl lvl' : Level) (r t idx addr : Nat) (st f : Bool)
    (e : LogEntry) (h : access_level name lvl r t idx addr st = some (lvl', e, f)) :
    ∃ row bl', lvl.rows_vec[r]? = some row ∧ update_blocks row.blocks_vec t = some bl' ∧
      lvl' = { lvl with rows_vec := lvl.rows_vec.set r { row with blocks_vec := bl' } } ∧
      e = print_log_entry name (status_of st (decide (t ∈ row_tags row))) idx addr r ∧
      f = decide (t ∈ row_tags row) := by
  unfold access_level at h
  cases hrow : lvl.rows_vec[r]? with
  | none => rw [hrow] at h; cases h
  | some row =>
    rw [hrow] at h
    cases hu : update_blocks row.blocks_vec t with
    | none => simp [hu] at h
    | some bl' =>
      simp only [hu, Option.some.injEq, Prod.mk.injEq] at h
      obtain ⟨h1, h2, h3⟩ := h
      refine ⟨row, bl', rfl, hu, h1.symm, ?_, ?_⟩
      · rw [← h2, find_tag_isSome]; rfl
      · rw [← h3, find_tag_isSome]; rfl

theorem access_level_some (name : String) (lvl : Level) (r t idx addr : Nat) (st : Bool)
    (row : Row) (hrow : lvl.rows_vec[r]? = some row) (hne : row.blocks_vec ≠ []) :
    ∃ bl', update_blocks row.blocks_vec t = some bl' ∧
      bl'.map Block.tag = lru_touch (row_tags row) t ∧
      access_level name lvl r t idx addr st
        = some ({ lvl with rows_vec := lvl.rows_vec.set r { row with blocks_vec := bl' } },
            print_log_entry name (status_of st (decide (t ∈ row_tags row))) idx addr r,
            decide (t ∈ row_tags row)) := by
  obtain ⟨bl', hu, htags⟩ := update_blocks_tags row.blocks_vec t hne
  refine ⟨bl', hu, htags, ?_⟩
  unfold access_level
  rw [hrow]
  simp only [hu, find_tag_isSome]
  rfl

/-- The access of a one-level cache: lines 166-219 only. -/
theorem simulate_one_level (address index : Nat) (l1 : Level) (size assoc blocksize : Int)
    (st : Bool) (hg : valid_geometry size assoc blocksize) (haddr : address < 65536) :
    simulate_cache_access address index { levels_vec := [l1] } [size, assoc, blocksize] st
      = match access_level "L1" l1 (row_of address size assoc blocksize)
          (tag_of address size assoc blocksize) index address st with
        | none => none
        | some (l1new, e1, _) => some ({ levels_vec := [l1new] }, [e1]) := by
  simp only [simulate_cache_access, l2_row_and_tag, List.getElem?_cons_zero,
    List.getElem?_cons_succ, Option.bind_eq_bind, Option.some_bind,
    row_and_tag_valid address hg haddr, List.length_cons, List.length_nil]
  simp only [show ¬ (0 + 1 + 1 + 1 = 6) by decide, if_false, Option.some_bind]
  cases access_level "L1" l1 (row_of address size assoc blocksize)
      (tag_of address size assoc blocksize) index address st with
  | none => simp
  | some r => obtain ⟨l, e, f⟩ := r; simp

/-- The access of a two-level cache: lines 166-256. -/
theorem simulate_two_level (address index : Nat) (l1 l2 : Level)
    (size1 assoc1 blocksize1 size2 assoc2 blocksize2 : Int) (st : Bool)
    (hg1 : valid_geometry size1 assoc1 blocksize1) (hg2 : valid_geometry size2 assoc2 blocksize2)
    (haddr : address < 65536) :
    simulate_cache_access address index { levels_vec := [l1, l2] }
        [size1, assoc1, blocksize1, size2, assoc2, blocksize2] st
      = match access_level "L1" l1 (row_of address size1 assoc1 blocksize1)
          (tag_of address size1 assoc1 blocksize1) index address st with
        | none => none
        | some (l1new, e1, found) =>
          if (!found || st) = true then
            match access_level "L2" l2 (row_of address size2 assoc2 blocksize2)
              (tag_of address size2 assoc2 blocksize2) index address st with
            | none => none
            | some (l2new, e2, _) => some ({ levels_vec := [l1new, l2new] }, [e1, e2])
          else some ({ levels_vec := [l1new, l2] }, [e1]) := by
  simp only [simulate_cache_access, l2_row_and_tag, List.getElem?_cons_zero,
    List.getElem?_cons_succ, Option.bind_eq_bind, Option.some_bind,
    row_and_tag_valid address hg1 haddr, row_and_tag_valid address hg2 haddr, List.length_cons,
    List.length_nil, if_true]
  cases access_level "L1" l1 (row_of address size1 assoc1 blocksize1)
      (tag_of address size1 assoc1 blocksize1) index address st with
  | none => simp
  | some r =>
    obtain ⟨l, e, f⟩ := r
    by_cases hc : (!f || st) = true
    · simp only [hc, Option.some_bind, List.set_cons_zero, List.getElem?_cons_succ,
        List.getElem?_cons_zero, if_true, and_true]
      cases access_level "L2" l2 (row_of address size2 assoc2 blocksize2)
          (tag_of address size2 assoc2 blocksize2) index address st with
      | none => simp
      | some r2 => obtain ⟨l', e', f'⟩ := r2; simp
    · have hf : f = true := by cases f <;> simp_all
      have hs : st = false := by cases st <;> simp_all
      subst hf hs
      simp


/-! ## Write-through gating -/

theorem shaped_row (address : Nat) {size assoc blocksize : Int} {lvl : Level}
    (hg : valid_geometry size assoc blocksize) (hs : level_shaped size assoc blocksize lvl) :
    ∃ row, lvl.rows_vec[row_of address size assoc blocksize]? = some row ∧
      row.blocks_vec ≠ [] := by
  have hlt : row_of address size assoc blocksize < lvl.rows_vec.length := by
    rw [hs.1]; exact row_of_lt address hg
  refine ⟨lvl.rows_vec[row_of address size assoc blocksize], List.getElem?_eq_getElem hlt, ?_⟩
  have hlen := hs.2 _ (List.getElem_mem hlt)
  intro hnil
  rw [hnil] at hlen
  have := hg.1
  simp only [List.length_nil] at hlen
  omega

/-- C1: in a two-level cache of valid geometry, whatever the blocks hold, a
store prints exactly the two entries L1 SW and L2 SW in this order; a load
prints either the single entry L1 HIT, or L1 MISS followed by exactly one L2
entry (HIT or MISS). -/
theorem write_through_gating (address index : Nat) (l1 l2 : Level)
    (size1 assoc1 blocksize1 size2 assoc2 blocksize2 : Int)
    (hg1 : valid_geometry size1 assoc1 blocksize1) (hg2 : valid_geometry size2 assoc2 blocksize2)
    (hs1 : level_shaped size1 assoc1 blocksize1 l1) (hs2 : level_shaped size2 assoc2 blocksize2 l2)
    (haddr : address < 65536) :
    (simulate_cache_access address index { levels_vec := [l1, l2] }
        [size1, assoc1, blocksize1, size2, assoc2, blocksize2] true).map Prod.snd
      = some [print_log_entry "L1" "SW" index address (row_of address size1 assoc1 blocksize1),
              print_log_entry "L2" "SW" index address (row_of address size2 assoc2 blocksize2)] ∧
    ((simulate_cache_access address index { levels_vec := [l1, l2] }
        [size1, assoc1, blocksize1, size2, assoc2, blocksize2] false).map Prod.snd
      = some [print_log_entry "L1" "HIT" index address (row_of address size1 assoc1 blocksize1)] ∨
     (simulate_cache_access address index { levels_vec := [l1, l2] }
        [size1, assoc1, blocksize1, size2, assoc2, blocksize2] false).map Prod.snd
      = some [print_log_entry "L1" "MISS" index address (row_of address size1 assoc1 blocksize1),
              print_log_entry "L2" "HIT" index address (row_of address size2 assoc2 blocksize2)] ∨
     (simulate_cache_access address index { levels_vec := [l1, l2] }
        [size1, assoc1, blocksize1, size2, assoc2, blocksize2] false).map Prod.snd
      = some [print_log_entry "L1" "MISS" index address (row_of address size1 assoc1 blocksize1),
              print_log_entry "L2" "MISS" index address (row_of address size2 assoc2 blocksize2)]) := by
  obtain ⟨row1, hrow1, hne1⟩ := shaped_row address hg1 hs1
  obtain ⟨row2, hrow2, hne2⟩ := shaped_row address hg2 hs2
  have hsim := fun st => simulate_two_level address index l1 l2 size1 assoc1 blocksize1
    size2 assoc2 blocksize2 st hg1 hg2 haddr
  have hA1 := fun st => access_level_some "L1" l1 (row_of address size1 assoc1 blocksize1)
    (tag_of address size1 assoc1 blocksize1) index address st row1 hrow1 hne1
  have hA2 := fun st => access_level_some "L2" l2 (row_of address size2 assoc2 blocksize2)
    (tag_of address size2 assoc2 blocksize2) index address st row2 hrow2 hne2
  constructor
  · obtain ⟨b1, -, -, h1⟩ := hA1 true
    obtain ⟨b2, -, -, h2⟩ := hA2 true
    rw [hsim true, h1]
    simp only [Bool.or_true, if_true, h2, Option.map_some', status_of]
  · obtain ⟨b1, -, -, h1⟩ := hA1 false
    obtain ⟨b2, -, -, h2⟩ := hA2 false
    rw [hsim false, h1]
    by_cases hf1 : tag_of address size1 assoc1 blocksize1 ∈ row_tags row1
    · left
      simp [hf1, status_of]
    · right
      by_cases hf2 : tag_of address size2 assoc2 blocksize2 ∈ row_tags row2
      · left
        simp [hf1, hf2, h2, status_of]
      · right
        simp [hf1, hf2, h2, status_of]

/-- C1 at a concrete input: geometry 16,2,4,64,1,4 and address 5. -/
theorem write_through_gating_witness :
    (simulate_cache_access 5 0
        { levels_vec := [
            { rows_vec := List.replicate 2 { blocks_vec := [{}, {}], associativity := 2 },
              blocksize := 4 },
            { rows_vec := List.replicate 16 { blocks_vec := [{}], associativity := 1 },
              blocksize := 4 }] }
        [16, 2, 4, 64, 1, 4] true).map Prod.snd
      = some [print_log_entry "L1" "SW" 0 5 1, print_log_entry "L2" "SW" 0 5 1] :=
  (write_through_gating 5 0
    { rows_vec := List.replicate 2 { blocks_vec := [{}, {}], associativity := 2 },
      blocksize := 4 }
    { rows_vec := List.replicate 16 { blocks_vec := [{}], associativity := 1 },
      blocksize := 4 }
    16 2 4 64 1 4 (by decide) (by decide) (by decide) (by decide) (by decide)).1


/-! ## LRU order of one row -/

theorem mem_keep_last (l : List Nat) (x : Nat) : x ∈ keep_last l ↔ x ∈ l := by
  induction l with
  | nil => simp [keep_last]
  | cons y ys ih =>
    by_cases hy : y ∈ ys
    · simp only [keep_last, if_pos hy, ih, List.mem_cons]
      constructor
      · exact Or.inr
      · rintro (rfl | h)
        · exact hy
        · exact h
    · simp only [keep_last, if_neg hy, List.mem_cons, ih]

theorem keep_last_nodup (l : List Nat) : (keep_last l).Nodup := by
  induction l with
  | nil => simp [keep_last]
  | cons y ys ih =>
    by_cases hy : y ∈ ys
    · simpa only [keep_last, if_pos hy] using ih
    · simp only [keep_last, if_neg hy, List.nodup_cons, mem_keep_last]
      exact ⟨hy, ih⟩

theorem keep_last_cons_mem {x : Nat} {xs : List Nat} (h : x ∈ xs) :
    keep_last (x :: xs) = keep_last xs := by
  simp only [keep_last, if_pos h]

theorem keep_last_cons_not_mem {x : Nat} {xs : List Nat} (h : x ∉ xs) :
    keep_last (x :: xs) = x :: keep_last xs := by
  simp only [keep_last, if_neg h]

theorem keep_last_snoc (l : List Nat) (t : Nat) :
    keep_last (l ++ [t]) = (keep_last l).filter (fun x => x ≠ t) ++ [t] := by
  induction l with
  | nil => simp [keep_last]
  | cons y ys ih =>
    rw [List.cons_append]
    by_cases hyt : y = t
    · subst hyt
      have h1 : y ∈ ys ++ [y] := by simp
      rw [keep_last_cons_mem h1, ih]
      by_cases hy : y ∈ ys
      · rw [keep_last_cons_mem hy]
      · rw [keep_last_cons_not_mem hy]
        simp
    · by_cases hy : y ∈ ys
      · have h1 : y ∈ ys ++ [t] := by simp [hy]
        rw [keep_last_cons_mem h1, keep_last_cons_mem hy, ih]
      · have h1 : y ∉ ys ++ [t] := by simp [hy, hyt]
        rw [keep_last_cons_not_mem h1, keep_last_cons_not_mem hy, ih]
        simp [hyt]

theorem last_n_of_lru_inv {a : Nat} {tags K : List Nat} (h : lru_inv a tags K) :
    ∃ L, last_n a K = L ∧ tags = List.replicate (a - L.length) 65535 ++ L ∧ L.length ≤ a := by
  obtain ⟨P, L, hK, ht, hle, hP⟩ := h
  refine ⟨L, ?_, ht, hle⟩
  subst hK
  unfold last_n
  by_cases hPn : P = []
  · subst hPn
    simp only [List.nil_append]
    rw [Nat.sub_eq_zero_of_le hle]
    rfl
  · rw [List.length_append, hP hPn, Nat.add_sub_cancel]
    exact List.drop_left _ _

theorem filter_ne_of_not_mem {l : List Nat} {t : Nat} (h : t ∉ l) :
    l.filter (fun x => x ≠ t) = l := by
  rw [List.filter_eq_self]
  intro x hx
  have : x ≠ t := fun hxt => h (hxt ▸ hx)
  simpa using this

theorem erase_eq_filter_ne {l : List Nat} (h : l.Nodup) (t : Nat) :
    l.erase t = l.filter (fun x => x ≠ t) := by
  rw [h.erase_eq_filter]
  congr 1
  funext x
  by_cases hx : x = t <;> simp [hx]

theorem lru_inv_touch {a : Nat} {tags K : List Nat} {t : Nat} (ha : 0 < a) (hK : K.Nodup)
    (ht : t ≠ 65535) (h : lru_inv a tags K) :
    lru_inv a (lru_touch tags t) (K.filter (fun x => x ≠ t) ++ [t]) := by
  obtain ⟨P, L, rfl, rfl, hle, hP⟩ := h
  obtain ⟨hPnd, hLnd, hdisj⟩ := List.nodup_append.1 hK
  have hrep : t ∉ List.replicate (a - L.length) 65535 := by
    intro hm
    exact ht (List.eq_of_mem_replicate hm)
  by_cases htL : t ∈ L
  · have htP : t ∉ P := fun hp => hdisj hp htL
    refine ⟨P, L.filter (fun x => x ≠ t) ++ [t], ?_, ?_, ?_, ?_⟩
    · rw [List.filter_append, filter_ne_of_not_mem htP, List.append_assoc]
    · have hmem : t ∈ List.replicate (a - L.length) 65535 ++ L := List.mem_append_right _ htL
      have hlen : (L.filter (fun x => x ≠ t) ++ [t]).length = L.length := by
        rw [← erase_eq_filter_ne hLnd t, List.length_append, List.length_erase_of_mem htL,
          List.length_singleton]
        have : 0 < L.length := List.length_pos_of_mem htL
        omega
      rw [lru_touch, if_pos hmem, List.erase_append_right _ hrep, erase_eq_filter_ne hLnd t, hlen,
        List.append_assoc]
    · rw [← erase_eq_filter_ne hLnd t, List.length_append, List.length_erase_of_mem htL,
        List.length_singleton]
      have : 0 < L.length := List.length_pos_of_mem htL
      omega
    · intro hPne
      rw [← erase_eq_filter_ne hLnd t, List.length_append, List.length_erase_of_mem htL,
        List.length_singleton]
      have : 0 < L.length := List.length_pos_of_mem htL
      have := hP hPne
      omega
  · have hnm : t ∉ List.replicate (a - L.length) 65535 ++ L := by
      intro hm
      rcases List.mem_append.1 hm with h1 | h1
      · exact hrep h1
      · exact htL h1
    rw [lru_touch, if_neg hnm, List.filter_append, filter_ne_of_not_mem htL]
    by_cases hfull : L.length = a
    · cases L with
      | nil => simp at hfull; omega
      | cons x L0 =>
        refine ⟨P.filter (fun x => x ≠ t) ++ [x], L0 ++ [t], ?_, ?_, ?_, ?_⟩
        · simp
        · have h0 : a - (x :: L0).length = 0 := by
            simp only [List.length_cons] at hfull ⊢
            omega
          have h1 : a - (L0 ++ [t]).length = 0 := by
            simp only [List.length_append, List.length_cons, List.length_nil] at hfull hle ⊢
            omega
          rw [h0, h1]
          simp
        · simp only [List.length_append, List.length_cons, List.length_nil] at hfull hle ⊢
          omega
        · intro _
          simp only [List.length_append, List.length_cons, List.length_nil] at hfull hle ⊢
          omega
    · have hPnil : P = [] := by
        by_contra hne
        exact hfull (hP hne)
      subst hPnil
      have hlt : L.length < a := lt_of_le_of_ne hle hfull
      refine ⟨[], L ++ [t], ?_, ?_, ?_, ?_⟩
      · simp
      · have h0 : a - L.length = (a - (L ++ [t]).length) + 1 := by
          simp only [List.length_append, List.length_singleton]
          omega
        rw [h0, List.replicate_succ]
        simp
      · simp only [List.length_append, List.length_singleton]
        omega
      · intro hne
        exact absurd rfl hne

theorem lru_inv_fresh (a : Nat) : lru_inv a (List.replicate a 65535) [] :=
  ⟨[], [], rfl, by simp, Nat.zero_le _, fun h => absurd rfl h⟩

theorem tags_to_row_snoc_same (size assoc blocksize : Int) (hist : List Access) (x : Access) :
    tags_to_row size assoc blocksize (row_of x.address size assoc blocksize) (hist ++ [x])
      = tags_to_row size assoc blocksize (row_of x.address size assoc blocksize) hist
          ++ [tag_of x.address size assoc blocksize] := by
  simp [tags_to_row, List.filter_append]

theorem tags_to_row_snoc_other (size assoc blocksize : Int) (hist : List Access) (x : Access)
    (r : Nat) (h : r ≠ row_of x.address size assoc blocksize) :
    tags_to_row size assoc blocksize r (hist ++ [x])
      = tags_to_row size assoc blocksize r hist := by
  have h' : ¬ row_of x.address size assoc blocksize = r := fun e => h e.symm
  simp [tags_to_row, List.filter_append, h']

theorem tags_to_row_ne_sentinel (size assoc blocksize : Int) (r : Nat) (hist : List Access)
    (h : ∀ x ∈ hist, x.address < 8192) :
    ∀ t ∈ tags_to_row size assoc blocksize r hist, t < 8192 := by
  intro t ht
  simp only [tags_to_row, List.mem_map, List.mem_filter] at ht
  obtain ⟨x, ⟨hx, -⟩, rfl⟩ := ht
  exact lt_of_le_of_lt (tag_of_le _ _ _ _) (h x hx)

theorem row_tags_of_lru_inv {a : Nat} {row : Row} {tags : List Nat}
    (h : lru_inv a (row_tags row) (keep_last tags)) :
    row_tags row = List.replicate (a - (lru_order a tags).length) 65535 ++ lru_order a tags ∧
      (lru_order a tags).length ≤ a := by
  obtain ⟨L, hL, ht, hle⟩ := last_n_of_lru_inv h
  unfold lru_order
  rw [hL]
  exact ⟨ht, hle⟩

theorem lru_order_subset (a : Nat) (tags : List Nat) : ∀ t ∈ lru_order a tags, t ∈ tags := by
  intro t ht
  exact (mem_keep_last tags t).1 (List.mem_of_mem_drop ht)

/-- One access of a level that satisfies the invariant: it is defined, it
reports a hit exactly for a tag of the LRU order, and the invariant holds
for the longer history. -/
theorem level_inv_step (name : String) {size assoc blocksize : Int} {lvl : Level}
    {hist : List Access} (x : Access) (hg : valid_geometry size assoc blocksize)
    (hinv : level_inv size assoc blocksize lvl hist) (hx : x.address < 8192) :
    ∃ lvl', access_level name lvl (row_of x.address size assoc blocksize)
        (tag_of x.address size assoc blocksize) x.index x.address x.is_store_word
        = some (lvl',
            print_log_entry name (status_of x.is_store_word
              (decide (tag_of x.address size assoc blocksize ∈ lru_order assoc.toNat
                (tags_to_row size assoc blocksize (row_of x.address size assoc blocksize) hist))))
              x.index x.address (row_of x.address size assoc blocksize),
            decide (tag_of x.address size assoc blocksize ∈ lru_order assoc.toNat
                (tags_to_row size assoc blocksize (row_of x.address size assoc blocksize) hist))) ∧
      level_inv size assoc blocksize lvl' (hist ++ [x]) := by
  set r := row_of x.address size assoc blocksize with hr
  set t := tag_of x.address size assoc blocksize with htdef
  have hapos : 0 < assoc.toNat := by have := hg.1; omega
  have ht : t ≠ 65535 := by
    have := tag_of_le x.address size assoc blocksize
    omega
  have hlt : r < lvl.rows_vec.length := by rw [hinv.1]; exact row_of_lt _ hg
  have hrow : lvl.rows_vec[r]? = some lvl.rows_vec[r] := List.getElem?_eq_getElem hlt
  have hrinv := hinv.2 r _ hrow
  obtain ⟨htags, hle⟩ := row_tags_of_lru_inv hrinv
  have hne : lvl.rows_vec[r].blocks_vec ≠ [] := by
    intro hnil
    have hl := congrArg List.length htags
    simp only [row_tags, hnil, List.map_nil, List.length_nil, List.length_append,
      List.length_replicate] at hl
    omega
  have hmem : t ∈ row_tags lvl.rows_vec[r] ↔
      t ∈ lru_order assoc.toNat (tags_to_row size assoc blocksize r hist) := by
    rw [htags, List.mem_append]
    constructor
    · rintro (h | h)
      · exact absurd (List.eq_of_mem_replicate h) ht
      · exact h
    · exact Or.inr
  obtain ⟨bl', -, hbl, hacc⟩ := access_level_some name lvl r t x.index x.address
    x.is_store_word _ hrow hne
  refine ⟨{ lvl with rows_vec := lvl.rows_vec.set r { lvl.rows_vec[r] with blocks_vec := bl' } },
    ?_, ?_, ?_⟩
  · rw [hacc]
    simp only [hmem]
  · simp [hinv.1]
  · intro r' row' hrow'
    simp only at hrow'
    by_cases hrr : r' = r
    · subst hrr
      rw [List.getElem?_set_self hlt] at hrow'
      simp only [Option.some.injEq] at hrow'
      subst hrow'
      have e1 : tags_to_row size assoc blocksize r (hist ++ [x])
          = tags_to_row size assoc blocksize r hist ++ [t] :=
        tags_to_row_snoc_same size assoc blocksize hist x
      have e2 : row_tags { lvl.rows_vec[r] with blocks_vec := bl' }
          = lru_touch (row_tags lvl.rows_vec[r]) t := hbl
      rw [e1, keep_last_snoc, e2]
      exact lru_inv_touch hapos (keep_last_nodup _) ht hrinv
    · rw [List.getElem?_set_ne (fun e => hrr e.symm)] at hrow'
      rw [tags_to_row_snoc_other _ _ _ _ _ _ hrr]
      exact hinv.2 r' row' hrow'

/-! ## The freshly built cache -/

theorem main_level_valid {size assoc blocksize : Int} (hg : valid_geometry size assoc blocksize) :
    main_level size assoc blocksize = some (fresh_level size assoc blocksize) := by
  obtain ⟨ha, hb, hab, hs⟩ := hg
  have hp : 0 < assoc * blocksize := Int.mul_pos ha hb
  have hmul : int_mul assoc blocksize = some (assoc * blocksize) := by
    unfold int_mul INT_MIN INT_MAX
    rw [if_pos]
    constructor <;> omega
  have hdiv : int_div size (assoc * blocksize) = some (size / (assoc * blocksize)) := by
    unfold int_div INT_MIN
    rw [if_neg (by omega), if_neg (by intro h; have := h.2; omega),
      Int.tdiv_eq_ediv (by omega) (by omega)]
  unfold main_level
  rw [hmul]
  simp only [hdiv]
  unfold Level.Level
  rw [if_neg (by intro h; have := h.2; omega)]
  rfl

theorem fresh_level_inv (size assoc blocksize : Int) :
    level_inv size assoc blocksize (fresh_level size assoc blocksize) [] := by
  refine ⟨by simp [fresh_level], ?_⟩
  intro r row hrow
  have hmem : row ∈ (fresh_level size assoc blocksize).rows_vec := List.getElem?_mem hrow
  have hrow' := List.eq_of_mem_replicate hmem
  subst hrow'
  have : row_tags { blocks_vec := List.replicate assoc.toNat ({} : Block), associativity := assoc }
      = List.replicate assoc.toNat 65535 := by
    simp [row_tags]
  rw [this]
  exact lru_inv_fresh _

theorem fresh_level_shaped (size assoc blocksize : Int) :
    level_shaped size assoc blocksize (fresh_level size assoc blocksize) := by
  refine ⟨by simp [fresh_level], ?_⟩
  intro row hmem
  have hrow' := List.eq_of_mem_replicate hmem
  subst hrow'
  simp

/-! ## Sequences of accesses to a one-level cache -/

theorem one_level_run {size assoc blocksize : Int} (hg : valid_geometry size assoc blocksize)
    (accs : List Access) (haddr : ∀ x ∈ accs, x.address < 8192) (lvl : Level)
    (hist : List Access) (hinv : level_inv size assoc blocksize lvl hist) :
    ∃ lvl', run_accesses [size, assoc, blocksize] accs { levels_vec := [lvl] }
        = some { levels_vec := [lvl'] } ∧
      level_inv size assoc blocksize lvl' (hist ++ accs) := by
  induction accs generalizing lvl hist with
  | nil => exact ⟨lvl, rfl, by simpa using hinv⟩
  | cons x rest ih =>
    have hx : x.address < 8192 := haddr x (List.mem_cons_self _ _)
    obtain ⟨lvl1, hacc, hinv1⟩ := level_inv_step "L1" x hg hinv hx
    obtain ⟨lvl2, hrun, hinv2⟩ := ih (fun y hy => haddr y (List.mem_cons_of_mem _ hy)) lvl1
      (hist ++ [x]) hinv1
    refine ⟨lvl2, ?_, by simpa using hinv2⟩
    unfold run_accesses
    rw [simulate_one_level x.address x.index lvl size assoc blocksize x.is_store_word hg
      (by omega), hacc]
    exact hrun

theorem final_cache_one_level {size assoc blocksize : Int}
    (hg : valid_geometry size assoc blocksize) (accs : List Access)
    (haddr : ∀ x ∈ accs, x.address < 8192) :
    ∃ lvl, final_cache [size, assoc, blocksize] accs = some { levels_vec := [lvl] } ∧
      level_inv size assoc blocksize lvl accs := by
  obtain ⟨lvl, hrun, hinv⟩ := one_level_run hg accs haddr _ [] (fresh_level_inv size assoc blocksize)
  refine ⟨lvl, ?_, by simpa using hinv⟩
  unfold final_cache main_cache
  simp only [main_level_valid hg, Option.some_bind]
  exact hrun

/-! ## Shape of the cache -/

theorem map_set_of_eq {α β : Type} (g : α → β) (l : List α) (i : Nat) (x y : α)
    (hx : l[i]? = some x) (hg : g y = g x) : (l.set i y).map g = l.map g := by
  induction l generalizing i with
  | nil => simp
  | cons z zs ih =>
    cases i with
    | zero =>
      simp only [List.getElem?_cons_zero, Option.some.injEq] at hx
      subst hx
      simp [hg]
    | succ j =>
      simp only [List.getElem?_cons_succ] at hx
      simp [ih j hx]

theorem access_level_shape (name : String) (lvl lvl' : Level) (r t idx addr : Nat) (st f : Bool)
    (e : LogEntry) (h : access_level name lvl r t idx addr st = some (lvl', e, f)) :
    lvl'.rows_vec.map (fun row => row.blocks_vec.length)
      = lvl.rows_vec.map (fun row => row.blocks_vec.length) := by
  obtain ⟨row, bl', hrow, hu, rfl, -, -⟩ := access_level_inv name lvl lvl' r t idx addr st f e h
  exact map_set_of_eq _ _ r row _ hrow (update_blocks_length _ _ t hu)

theorem simulate_cache_access_shape (address index : Nat) (c c' : Cache) (parts : List Int)
    (st : Bool) (entries : List LogEntry)
    (h : simulate_cache_access address index c parts st = some (c', entries)) :
    cache_shape c' = cache_shape c := by
  simp only [simulate_cache_access, Option.bind_eq_bind, Option.bind_eq_some] at h
  obtain ⟨p0, -, p1, -, p2, -, ⟨r1, t1⟩, -, ⟨r2, t2⟩, -, lvl1, hl1, ⟨lvl1n, e1, f1⟩, ha1, h⟩ := h
  have hs1 := access_level_shape "L1" lvl1 lvl1n r1 t1 index address st f1 e1 ha1
  have hc1 : cache_shape { levels_vec := c.levels_vec.set 0 lvl1n } = cache_shape c :=
    map_set_of_eq _ _ 0 lvl1 _ hl1 hs1
  by_cases hcond : c.levels_vec.length = 2 ∧ (!f1 || st) = true
  · simp only [hcond, and_self, if_true, Option.bind_eq_some] at h
    obtain ⟨lvl2, hl2, ⟨lvl2n, e2, f2⟩, ha2, h⟩ := h
    simp only [Option.pure_def, Option.some.injEq, Prod.mk.injEq] at h
    obtain ⟨rfl, -⟩ := h
    have hs2 := access_level_shape "L2" lvl2 lvl2n r2 t2 index address st f2 e2 ha2
    rw [← hc1]
    exact map_set_of_eq _ _ 1 lvl2 _ hl2 hs2
  · simp only [hcond, if_false, Option.pure_def, Option.some.injEq, Prod.mk.injEq] at h
    obtain ⟨rfl, -⟩ := h
    exact hc1

theorem level_shaped_iff (size assoc blocksize : Int) (lvl : Level) :
    level_shaped size assoc blocksize lvl ↔
      lvl.rows_vec.map (fun row => row.blocks_vec.length)
        = List.replicate (num_rows size assoc blocksize) assoc.toNat := by
  unfold level_shaped
  rw [List.eq_replicate_iff]
  simp only [List.length_map, List.mem_map, forall_exists_index, and_imp,
    forall_apply_eq_imp_iff₂]

theorem access_level_shaped (name : String) {size assoc blocksize : Int} {lvl lvl' : Level}
    {r t idx addr : Nat} {st f : Bool} {e : LogEntry}
    (h : access_level name lvl r t idx addr st = some (lvl', e, f))
    (hs : level_shaped size assoc blocksize lvl) : level_shaped size assoc blocksize lvl' := by
  rw [level_shaped_iff] at hs ⊢
  rw [access_level_shape name lvl lvl' r t idx addr st f e h, hs]

/-- On a cache of the shape of its configuration every access is defined,
and leaves a cache of that shape. -/
theorem simulate_defined (address index : Nat) (c : Cache) (parts : List Int) (st : Bool)
    (hc : cache_shaped parts c) (haddr : address < 65536) :
    ∃ c' entries, simulate_cache_access address index c parts st = some (c', entries) ∧
      cache_shaped parts c' := by
  obtain ⟨levels⟩ := c
  unfold cache_shaped at hc
  split at hc
  · next s1 a1 b1 l1 hl =>
    simp only at hl
    subst hl
    obtain ⟨hg, hs⟩ := hc
    obtain ⟨row, hrow, hne⟩ := shaped_row address hg hs
    obtain ⟨bl, -, -, hacc⟩ := access_level_some "L1" l1 (row_of address s1 a1 b1)
      (tag_of address s1 a1 b1) index address st row hrow hne
    rw [simulate_one_level address index l1 s1 a1 b1 st hg haddr, hacc]
    refine ⟨_, _, rfl, ?_⟩
    exact ⟨hg, access_level_shaped "L1" hacc hs⟩
  · next s1 a1 b1 s2 a2 b2 l1 l2 hl =>
    simp only at hl
    subst hl
    obtain ⟨hg1, hs1, hg2, hs2⟩ := hc
    obtain ⟨row1, hrow1, hne1⟩ := shaped_row address hg1 hs1
    obtain ⟨row2, hrow2, hne2⟩ := shaped_row address hg2 hs2
    obtain ⟨bl1, -, -, hacc1⟩ := access_level_some "L1" l1 (row_of address s1 a1 b1)
      (tag_of address s1 a1 b1) index address st row1 hrow1 hne1
    obtain ⟨bl2, -, -, hacc2⟩ := access_level_some "L2" l2 (row_of address s2 a2 b2)
      (tag_of address s2 a2 b2) index address st row2 hrow2 hne2
    rw [simulate_two_level address index l1 l2 s1 a1 b1 s2 a2 b2 st hg1 hg2 haddr, hacc1]
    by_cases hcond : (!decide (tag_of address s1 a1 b1 ∈ row_tags row1) || st) = true
    · simp only [hcond, if_true, hacc2]
      refine ⟨_, _, rfl, ?_⟩
      exact ⟨hg1, access_level_shaped "L1" hacc1 hs1, hg2, access_level_shaped "L2" hacc2 hs2⟩
    · simp only [hcond, if_false]
      refine ⟨_, _, rfl, ?_⟩
      exact ⟨hg1, access_level_shaped "L1" hacc1 hs1, hg2, hs2⟩
  · exact absurd hc id

/-! ## Sequences of accesses to a two-level cache -/

theorem two_level_run {s1 a1 b1 s2 a2 b2 : Int} (hg1 : valid_geometry s1 a1 b1)
    (hg2 : valid_geometry s2 a2 b2) (accs : List Access)
    (haddr : ∀ x ∈ accs, x.address < 8192) (l1 l2 : Level) (hist : List Access)
    (hinv : level_inv s1 a1 b1 l1 hist) (hs2 : level_shaped s2 a2 b2 l2) :
    ∃ l1' l2', run_accesses [s1, a1, b1, s2, a2, b2] accs { levels_vec := [l1, l2] }
        = some { levels_vec := [l1', l2'] } ∧
      level_inv s1 a1 b1 l1' (hist ++ accs) ∧ level_shaped s2 a2 b2 l2' := by
  induction accs generalizing l1 l2 hist with
  | nil => exact ⟨l1, l2, rfl, by simpa using hinv, hs2⟩
  | cons x rest ih =>
    have hx : x.address < 8192 := haddr x (List.mem_cons_self _ _)
    have hrest : ∀ y ∈ rest, y.address < 8192 := fun y hy => haddr y (List.mem_cons_of_mem _ hy)
    obtain ⟨l1n, hacc1, hinv1⟩ := level_inv_step "L1" x hg1 hinv hx
    obtain ⟨row2, hrow2, hne2⟩ := shaped_row x.address hg2 hs2
    obtain ⟨bl2, -, -, hacc2⟩ := access_level_some "L2" l2 (row_of x.address s2 a2 b2)
      (tag_of x.address s2 a2 b2) x.index x.address x.is_store_word row2 hrow2 hne2
    have hsim := simulate_two_level x.address x.index l1 l2 s1 a1 b1 s2 a2 b2 x.is_store_word
      hg1 hg2 (by omega)
    rw [hacc1] at hsim
    by_cases hcond : (!decide (tag_of x.address s1 a1 b1 ∈ lru_order a1.toNat
        (tags_to_row s1 a1 b1 (row_of x.address s1 a1 b1) hist)) || x.is_store_word) = true
    · simp only [hcond, if_true, hacc2] at hsim
      obtain ⟨l1', l2', hrun, hi, hs⟩ := ih hrest l1n _ (hist ++ [x]) hinv1
        (access_level_shaped "L2" hacc2 hs2)
      refine ⟨l1', l2', ?_, by simpa using hi, hs⟩
      unfold run_accesses
      rw [hsim]
      exact hrun
    · simp only [hcond, if_false] at hsim
      obtain ⟨l1', l2', hrun, hi, hs⟩ := ih hrest l1n l2 (hist ++ [x]) hinv1 hs2
      refine ⟨l1', l2', ?_, by simpa using hi, hs⟩
      unfold run_accesses
      rw [hsim]
      exact hrun

/-- The first level of the cache that `main` builds from one or two valid
geometries satisfies the LRU invariant after any accesses below 8192. -/
theorem final_cache_l1 (size assoc blocksize : Int) (rest : List Int)
    (hv : valid_parts (size :: assoc :: blocksize :: rest)) (accs : List Access)
    (haddr : ∀ x ∈ accs, x.address < 8192) :
    ∃ lvl others, final_cache (size :: assoc :: blocksize :: rest) accs
        = some { levels_vec := lvl :: others } ∧
      level_inv size assoc blocksize lvl accs := by
  unfold valid_parts at hv
  split at hv
  · next s1 a1 b1 heq =>
    simp only [List.cons.injEq, and_true] at heq
    obtain ⟨rfl, rfl, rfl, rfl⟩ := heq
    obtain ⟨lvl, hfin, hinv⟩ := final_cache_one_level hv accs haddr
    exact ⟨lvl, [], hfin, hinv⟩
  · next s1 a1 b1 s2 a2 b2 heq =>
    simp only [List.cons.injEq, and_true] at heq
    obtain ⟨rfl, rfl, rfl, rfl⟩ := heq
    obtain ⟨l1, l2, hrun, hinv, -⟩ := two_level_run hv.1 hv.2 accs haddr _ _ []
      (fresh_level_inv size assoc blocksize) (fresh_level_shaped s2 a2 b2)
    refine ⟨l1, [l2], ?_, by simpa using hinv⟩
    unfold final_cache main_cache
    simp only [main_level_valid hv.1, main_level_valid hv.2, Option.some_bind]
    exact hrun
  · exact absurd hv id

/-! ## LRU ordering -/

theorem tags_to_row_all (size assoc blocksize : Int) (r : Nat) (accs : List Access)
    (hrow : ∀ x ∈ accs, row_of x.address size assoc blocksize = r) :
    tags_to_row size assoc blocksize r accs
      = accs.map (fun x => tag_of x.address size assoc blocksize) := by
  unfold tags_to_row
  rw [List.filter_eq_self.2]
  intro x hx
  simpa using hrow x hx

theorem resident_tags_of_lru_inv {a : Nat} {row : Row} {tags : List Nat}
    (h : lru_inv a (row_tags row) (keep_last tags)) (hs : ∀ t ∈ tags, t < 8192) :
    resident_tags row = lru_order a tags := by
  obtain ⟨htags, -⟩ := row_tags_of_lru_inv h
  unfold resident_tags
  rw [htags, List.filter_append]
  have h1 : (List.replicate (a - (lru_order a tags).length) 65535).filter (fun t => t ≠ 65535)
      = [] := by
    rw [List.filter_eq_nil_iff]
    intro x hx
    simp [List.eq_of_mem_replicate hx]
  have h2 : (lru_order a tags).filter (fun t => t ≠ 65535) = lru_order a tags := by
    rw [List.filter_eq_self]
    intro x hx
    have := hs x (lru_order_subset a tags x hx)
    have hne : x ≠ 65535 := by omega
    simpa using hne
  rw [h1, h2, List.nil_append]

theorem lru_order_nodup (a : Nat) (tags : List Nat) : (lru_order a tags).Nodup :=
  (keep_last_nodup tags).sublist (List.drop_sublist _ _)

theorem lru_order_of_le (a : Nat) (tags : List Nat) (h : (keep_last tags).length ≤ a) :
    lru_order a tags = keep_last tags := by
  unfold lru_order last_n
  rw [Nat.sub_eq_zero_of_le h]
  rfl

/-- C2: in the cache that `main` builds from one or two valid geometries,
after any sequence of loads and stores with addresses below 8192 that all
map to row `r` of the first level, the non-empty blocks of that row, front
(least recently used) first, carry the last `associativity` tags of the
access-order tag list in which only the most recent occurrence of each tag is
kept; no tag is there twice; and when at most `associativity` distinct tags
were accessed they are exactly that de-duplicated list. -/
theorem lru_ordering (size assoc blocksize : Int) (rest : List Int) (accs : List Access)
    (r : Nat) (hv : valid_parts (size :: assoc :: blocksize :: rest))
    (hr : r < num_rows size assoc blocksize)
    (haddr : ∀ x ∈ accs, x.address < 8192)
    (hrow : ∀ x ∈ accs, row_of x.address size assoc blocksize = r) :
    ((final_cache (size :: assoc :: blocksize :: rest) accs).bind
        (fun c => l1_row c r)).map resident_tags
      = some (last_n assoc.toNat
          (keep_last (accs.map (fun x => tag_of x.address size assoc blocksize)))) ∧
    (last_n assoc.toNat
      (keep_last (accs.map (fun x => tag_of x.address size assoc blocksize)))).Nodup ∧
    ((keep_last (accs.map (fun x => tag_of x.address size assoc blocksize))).length
        ≤ assoc.toNat →
      ((final_cache (size :: assoc :: blocksize :: rest) accs).bind
          (fun c => l1_row c r)).map resident_tags
        = some (keep_last (accs.map (fun x => tag_of x.address size assoc blocksize)))) := by
  obtain ⟨lvl, others, hfin, hinv⟩ := final_cache_l1 size assoc blocksize rest hv accs haddr
  have hlt : r < lvl.rows_vec.length := by rw [hinv.1]; exact hr
  have hrowr : lvl.rows_vec[r]? = some lvl.rows_vec[r] := List.getElem?_eq_getElem hlt
  have hri := hinv.2 r _ hrowr
  have hres := resident_tags_of_lru_inv hri
    (tags_to_row_ne_sentinel size assoc blocksize r accs haddr)
  rw [tags_to_row_all size assoc blocksize r accs hrow] at hres
  have hmain : ((final_cache (size :: assoc :: blocksize :: rest) accs).bind
      (fun c => l1_row c r)).map resident_tags
      = some (last_n assoc.toNat
          (keep_last (accs.map (fun x => tag_of x.address size assoc blocksize)))) := by
    rw [hfin]
    simp only [Option.some_bind, l1_row, List.getElem?_cons_zero, hrowr, Option.map_some', hres]
    rfl
  refine ⟨hmain, lru_order_nodup _ _, ?_⟩
  intro hle
  rw [hmain]
  exact congrArg some (lru_order_of_le _ _ hle)

/-- C2 at concrete inputs: geometry 16,2,4 (two rows of two blocks), alone
and in front of a second level 64,1,4, and the accesses 0, 8, 0, 16 to row 0,
with tags 0, 1, 0, 2. -/
theorem lru_ordering_witness :
    ((final_cache [16, 2, 4]
        [⟨0, 0, false⟩, ⟨8, 1, true⟩, ⟨0, 2, false⟩, ⟨16, 3, false⟩]).bind
      (fun c => l1_row c 0)).map resident_tags = some [0, 2] ∧
    ((final_cache [16, 2, 4, 64, 1, 4]
        [⟨0, 0, false⟩, ⟨8, 1, true⟩, ⟨0, 2, false⟩, ⟨16, 3, false⟩]).bind
      (fun c => l1_row c 0)).map resident_tags = some [0, 2] :=
  ⟨(lru_ordering 16 2 4 [] [⟨0, 0, false⟩, ⟨8, 1, true⟩, ⟨0, 2, false⟩, ⟨16, 3, false⟩] 0
    (by decide) (by decide) (by decide) (by decide)).1,
   (lru_ordering 16 2 4 [64, 1, 4]
    [⟨0, 0, false⟩, ⟨8, 1, true⟩, ⟨0, 2, false⟩, ⟨16, 3, false⟩] 0
    (by decide) (by decide) (by decide) (by decide)).1⟩

/-! ## Hits and misses of a one-level cache -/

/-- C3: in a one-level cache of valid geometry started from its freshly built
state, after any accesses `pre` with addresses below 8192, the next access
prints exactly one entry for L1: SW for a store, whatever the row holds, and
for a load HIT when its tag is among the `associativity` most recently
accessed distinct tags of its row and MISS otherwise. -/
theorem hit_iff_recent (size assoc blocksize : Int) (pre : List Access) (x : Access)
    (hg : valid_geometry size assoc blocksize) (hpre : ∀ y ∈ pre, y.address < 8192)
    (hx : x.address < 8192) :
    ((final_cache [size, assoc, blocksize] pre).bind
        (fun c => simulate_cache_access x.address x.index c [size, assoc, blocksize]
          x.is_store_word)).map Prod.snd
      = some [print_log_entry "L1"
          (if x.is_store_word then "SW"
           else if tag_of x.address size assoc blocksize ∈ lru_order assoc.toNat
              (tags_to_row size assoc blocksize (row_of x.address size assoc blocksize) pre)
           then "HIT" else "MISS")
          x.index x.address (row_of x.address size assoc blocksize)] := by
  obtain ⟨lvl, hfin, hinv⟩ := final_cache_one_level hg pre hpre
  obtain ⟨lvl1, hacc, -⟩ := level_inv_step "L1" x hg hinv hx
  rw [hfin]
  simp only [Option.some_bind]
  rw [simulate_one_level x.address x.index lvl size assoc blocksize x.is_store_word hg
    (by omega), hacc]
  simp only [Option.map_some', status_of, decide_eq_true_eq]

/-- C3 at a concrete input: geometry 16,2,4, accesses 0, 8, 16 to row 0, then
a load of address 0, whose tag has left the row. -/
theorem hit_iff_recent_witness :
    ((final_cache [16, 2, 4] [⟨0, 0, false⟩, ⟨8, 1, true⟩, ⟨16, 2, false⟩]).bind
        (fun c => simulate_cache_access 0 3 c [16, 2, 4] false)).map Prod.snd
      = some [print_log_entry "L1" "MISS" 3 0 0] :=
  hit_iff_recent 16 2 4 [⟨0, 0, false⟩, ⟨8, 1, true⟩, ⟨16, 2, false⟩] ⟨0, 3, false⟩
    (by decide) (by decide) (by decide)


/-! ## Row count invariant -/

/-- C4, the claim as stated fails: with size -64, associativity 1 and block
size 4 the quotient `size / (associativity * blocksize)` is -16 while the
constructed level has no row at all; and with associativity and block size
65536 the product overflows `int`, so that no level is constructed. -/
theorem row_count_counterexample :
    (main_level (-64) 1 4).map (fun lvl => lvl.rows_vec.length) = some 0 ∧
      Int.tdiv (-64) (1 * 4) = -16 ∧
      main_level 1 65536 65536 = none := by
  refine ⟨?_, ?_, ?_⟩ <;> decide

/-- C4, amended: for a non-negative size and positive associativity and
block size whose product fits an `int`, the level that `main` constructs has
exactly `size / (associativity * blocksize)` rows, each of exactly
`associativity` blocks; and every call of `simulate_cache_access` that
returns, load or store, on any number of levels, leaves the number of rows
of every level and the number of blocks of every row as they were; on a
cache of the shape of a valid configuration every call returns. -/
theorem row_count_invariant :
    (∀ size assoc blocksize : Int, 0 ≤ size → 0 < assoc → 0 < blocksize →
      assoc * blocksize ≤ INT_MAX →
      ∃ lvl, main_level size assoc blocksize = some lvl ∧
        (lvl.rows_vec.length : Int) = size / (assoc * blocksize) ∧
        ∀ row ∈ lvl.rows_vec, (row.blocks_vec.length : Int) = assoc) ∧
    (∀ (address index : Nat) (c c' : Cache) (parts : List Int) (st : Bool)
      (entries : List LogEntry),
      simulate_cache_access address index c parts st = some (c', entries) →
      cache_shape c' = cache_shape c) ∧
    (∀ (address index : Nat) (c : Cache) (parts : List Int) (st : Bool),
      cache_shaped parts c → address < 65536 →
      (simulate_cache_access address index c parts st).isSome = true) := by
  refine ⟨?_, ?_, ?_⟩
  · intro size assoc blocksize hs ha hb hab
    have hp : 0 < assoc * blocksize := Int.mul_pos ha hb
    have hmul : int_mul assoc blocksize = some (assoc * blocksize) := by
      unfold int_mul
      rw [if_pos]
      refine ⟨?_, hab⟩
      unfold INT_MIN
      omega
    have hdiv : int_div size (assoc * blocksize) = some (size / (assoc * blocksize)) := by
      unfold int_div INT_MIN
      rw [if_neg (by omega), if_neg (by intro h; have := h.2; omega),
        Int.tdiv_eq_ediv hs (by omega)]
    have hq : 0 ≤ size / (assoc * blocksize) := Int.ediv_nonneg hs (by omega)
    refine ⟨fresh_level size assoc blocksize, ?_, ?_, ?_⟩
    · unfold main_level
      rw [hmul]
      simp only [hdiv]
      unfold Level.Level
      rw [if_neg (by intro h; have := h.2; omega)]
      rfl
    · simp only [fresh_level, List.length_replicate, num_rows]
      omega
    · intro row hrow
      have := List.eq_of_mem_replicate hrow
      subst this
      simp only [List.length_replicate]
      omega
  · intro address index c c' parts st entries h
    exact simulate_cache_access_shape address index c c' parts st entries h
  · intro address index c parts st hc haddr
    obtain ⟨c', entries, h, -⟩ := simulate_defined address index c parts st hc haddr
    rw [h]
    rfl

/-- C4 (amended) at concrete inputs: the level of configuration 64,1,4, and a
store to address 5 in the cache of configuration 16,2,4,64,1,4. -/
theorem row_count_invariant_witness :
    (∃ lvl, main_level 64 1 4 = some lvl ∧ (lvl.rows_vec.length : Int) = 64 / (1 * 4) ∧
        ∀ row ∈ lvl.rows_vec, (row.blocks_vec.length : Int) = 1) ∧
      cache_shape
          { levels_vec := [
              { rows_vec := [{ blocks_vec := [{}, {}], associativity := 2 },
                  { blocks_vec := [{}, { tag := 0 }], associativity := 2 }],
                blocksize := 4 },
              { rows_vec := { blocks_vec := [{}], associativity := 1 } ::
                  { blocks_vec := [{ tag := 0 }], associativity := 1 } ::
                  List.replicate 14 { blocks_vec := [{}], associativity := 1 },
                blocksize := 4 }] }
        = cache_shape
          { levels_vec := [fresh_level 16 2 4, fresh_level 64 1 4] } ∧
      (simulate_cache_access 5 0 { levels_vec := [fresh_level 16 2 4, fresh_level 64 1 4] }
        [16, 2, 4, 64, 1, 4] true).isSome = true :=
  ⟨row_count_invariant.1 64 1 4 (by decide) (by decide) (by decide) (by decide),
   row_count_invariant.2.1 5 0 { levels_vec := [fresh_level 16 2 4, fresh_level 64 1 4] } _
    [16, 2, 4, 64, 1, 4] true
    [print_log_entry "L1" "SW" 0 5 1, print_log_entry "L2" "SW" 0 5 1] (by decide),
   row_count_invariant.2.2 5 0 { levels_vec := [fresh_level 16 2 4, fresh_level 64 1 4] }
    [16, 2, 4, 64, 1, 4] true (by decide) (by decide)⟩


/-! ## One pass of the loop, opcode by opcode -/

theorem loop_body_add (parts : List Int) (s : State) (h : opcode (fetch s) = 0)
    (hf : bits0_3 (fetch s) = 0) :
    loop_body parts s = some { s with
      regs_arr := store (store s.regs_arr (bits4_6 (fetch s))
        ((s.regs_arr (bits10_12 (fetch s)) + s.regs_arr (bits7_9 (fetch s))) % 65536)) 0 0,
      pc := (s.pc + 1) % 65536 } := by
  have hfetch : s.memory_arr (s.pc % MEM_SIZE % 65536) = fetch s := rfl
  unfold loop_body
  simp only [hfetch, h, hf, if_true]

theorem loop_body_sub (parts : List Int) (s : State) (h : opcode (fetch s) = 0)
    (hf : bits0_3 (fetch s) = 1) :
    loop_body parts s = some { s with
      regs_arr := store (store s.regs_arr (bits4_6 (fetch s))
        (toU16 ((s.regs_arr (bits10_12 (fetch s)) : Int)
          - (s.regs_arr (bits7_9 (fetch s)) : Int)))) 0 0,
      pc := (s.pc + 1) % 65536 } := by
  have hfetch : s.memory_arr (s.pc % MEM_SIZE % 65536) = fetch s := rfl
  unfold loop_body
  simp only [hfetch, h, hf, if_true]
  rfl

theorem loop_body_or (parts : List Int) (s : State) (h : opcode (fetch s) = 0)
    (hf : bits0_3 (fetch s) = 2) :
    loop_body parts s = some { s with
      regs_arr := store (store s.regs_arr (bits4_6 (fetch s))
        ((s.regs_arr (bits10_12 (fetch s)) ||| s.regs_arr (bits7_9 (fetch s))) % 65536)) 0 0,
      pc := (s.pc + 1) % 65536 } := by
  have hfetch : s.memory_arr (s.pc % MEM_SIZE % 65536) = fetch s := rfl
  unfold loop_body
  simp only [hfetch, h, hf, if_true]
  rfl

theorem loop_body_and (parts : List Int) (s : State) (h : opcode (fetch s) = 0)
    (hf : bits0_3 (fetch s) = 3) :
    loop_body parts s = some { s with
      regs_arr := store (store s.regs_arr (bits4_6 (fetch s))
        ((s.regs_arr (bits10_12 (fetch s)) &&& s.regs_arr (bits7_9 (fetch s))) % 65536)) 0 0,
      pc := (s.pc + 1) % 65536 } := by
  have hfetch : s.memory_arr (s.pc % MEM_SIZE % 65536) = fetch s := rfl
  unfold loop_body
  simp only [hfetch, h, hf, if_true]
  rfl

theorem loop_body_slt (parts : List Int) (s : State) (h : opcode (fetch s) = 0)
    (hf : bits0_3 (fetch s) = 4) :
    loop_body parts s = some { s with
      regs_arr := store (store s.regs_arr (bits4_6 (fetch s))
        (if s.regs_arr (bits10_12 (fetch s)) < s.regs_arr (bits7_9 (fetch s)) then 1 else 0)) 0 0,
      pc := (s.pc + 1) % 65536 } := by
  have hfetch : s.memory_arr (s.pc % MEM_SIZE % 65536) = fetch s := rfl
  unfold loop_body
  simp only [hfetch, h, hf, if_true]
  rfl

theorem loop_body_jr (parts : List Int) (s : State) (h : opcode (fetch s) = 0)
    (hf : bits0_3 (fetch s) = 8) :
    loop_body parts s = some { s with
      regs_arr := store s.regs_arr 0 0, pc := s.regs_arr (bits10_12 (fetch s)) } := by
  have hfetch : s.memory_arr (s.pc % MEM_SIZE % 65536) = fetch s := rfl
  unfold loop_body
  simp only [hfetch, h, hf, if_true]
  rfl

theorem loop_body_unlisted (parts : List Int) (s : State) (h : opcode (fetch s) = 0)
    (h0 : bits0_3 (fetch s) ≠ 0) (h1 : bits0_3 (fetch s) ≠ 1) (h2 : bits0_3 (fetch s) ≠ 2)
    (h3 : bits0_3 (fetch s) ≠ 3) (h4 : bits0_3 (fetch s) ≠ 4) (h8 : bits0_3 (fetch s) ≠ 8) :
    loop_body parts s = some { s with regs_arr := store s.regs_arr 0 0 } := by
  have hfetch : s.memory_arr (s.pc % MEM_SIZE % 65536) = fetch s := rfl
  unfold loop_body
  simp only [hfetch, h, if_true, if_neg h0, if_neg h1, if_neg h2, if_neg h3, if_neg h4, if_neg h8]

theorem loop_body_addi (parts : List Int) (s : State) (h : opcode (fetch s) = 1) :
    loop_body parts s = some { s with
      regs_arr := store (store s.regs_arr (bits7_9 (fetch s))
        ((s.regs_arr (bits10_12 (fetch s)) + bits0_6 (fetch s)) % 65536)) 0 0,
      pc := (s.pc + 1) % 65536 } := by
  have hfetch : s.memory_arr (s.pc % MEM_SIZE % 65536) = fetch s := rfl
  unfold loop_body
  simp only [hfetch, h]
  rfl

theorem loop_body_j (parts : List Int) (s : State) (h : opcode (fetch s) = 2) :
    loop_body parts s = some { s with
      halt := if s.pc = bits0_12 (fetch s) then true else s.halt,
      pc := bits0_12 (fetch s) } := by
  have hfetch : s.memory_arr (s.pc % MEM_SIZE % 65536) = fetch s := rfl
  unfold loop_body
  simp only [hfetch, h]
  rfl

theorem loop_body_jal (parts : List Int) (s : State) (h : opcode (fetch s) = 3) :
    loop_body parts s = some { s with
      regs_arr := store s.regs_arr 7 ((s.pc + 1) % 65536), pc := bits0_12 (fetch s) } := by
  have hfetch : s.memory_arr (s.pc % MEM_SIZE % 65536) = fetch s := rfl
  unfold loop_body
  simp only [hfetch, h]
  rfl

theorem loop_body_lw (parts : List Int) (s : State) (h : opcode (fetch s) = 4) :
    loop_body parts s =
      match simulate_cache_access
        (((s.regs_arr (bits10_12 (fetch s)) + bits0_6 (fetch s)) % MEM_SIZE) % 65536)
        ((s.pc % MEM_SIZE) % 65536) s.a_cache parts false with
      | none => none
      | some (cache, entries) =>
        some { s with
          a_cache := cache,
          out := s.out ++ entries,
          regs_arr := store (store s.regs_arr (bits7_9 (fetch s))
            (s.memory_arr (((s.regs_arr (bits10_12 (fetch s)) + bits0_6 (fetch s)) % MEM_SIZE)
              % 65536))) 0 0,
          pc := (s.pc + 1) % 65536 } := by
  have hfetch : s.memory_arr (s.pc % MEM_SIZE % 65536) = fetch s := rfl
  unfold loop_body
  simp only [hfetch, h]
  rfl

theorem loop_body_sw (parts : List Int) (s : State) (h : opcode (fetch s) = 5) :
    loop_body parts s =
      match simulate_cache_access
        (((s.regs_arr (bits10_12 (fetch s)) + bits0_6 (fetch s)) % MEM_SIZE) % 65536)
        ((s.pc % MEM_SIZE) % 65536) s.a_cache parts true with
      | none => none
      | some (cache, entries) =>
        some { s with
          a_cache := cache,
          out := s.out ++ entries,
          memory_arr := store s.memory_arr
            (((s.regs_arr (bits10_12 (fetch s)) + bits0_6 (fetch s)) % MEM_SIZE) % 65536)
            (s.regs_arr (bits7_9 (fetch s))),
          pc := (s.pc + 1) % 65536 } := by
  have hfetch : s.memory_arr (s.pc % MEM_SIZE % 65536) = fetch s := rfl
  unfold loop_body
  simp only [hfetch, h]
  rfl

theorem loop_body_jeq (parts : List Int) (s : State) (h : opcode (fetch s) = 6) :
    loop_body parts s = some { s with
      pc := if s.regs_arr (bits10_12 (fetch s)) = s.regs_arr (bits7_9 (fetch s))
        then (s.pc + 1 + bits0_6 (fetch s)) % 65536 else (s.pc + 1) % 65536 } := by
  have hfetch : s.memory_arr (s.pc % MEM_SIZE % 65536) = fetch s := rfl
  unfold loop_body
  by_cases hc : s.regs_arr (bits10_12 (fetch s)) = s.regs_arr (bits7_9 (fetch s))
  · simp only [hfetch, h, if_pos hc]
    rfl
  · simp only [hfetch, h, if_neg hc]
    rfl

theorem loop_body_slti (parts : List Int) (s : State) (h : opcode (fetch s) = 7) :
    loop_body parts s = some { s with
      regs_arr := store (store s.regs_arr (bits7_9 (fetch s))
        (if s.regs_arr (bits10_12 (fetch s)) < bits0_6 (fetch s) then 1 else 0)) 0 0,
      pc := (s.pc + 1) % 65536 } := by
  have hfetch : s.memory_arr (s.pc % MEM_SIZE % 65536) = fetch s := rfl
  unfold loop_body
  simp only [hfetch, h]
  rfl

theorem loop_body_no_opcode (parts : List Int) (s : State) (h : 7 < opcode (fetch s)) :
    loop_body parts s = some s := by
  have hfetch : s.memory_arr (s.pc % MEM_SIZE % 65536) = fetch s := rfl
  unfold loop_body
  have h0 : ¬ opcode (fetch s) = 0 := by omega
  have h1 : ¬ opcode (fetch s) = 1 := by omega
  have h2 : ¬ opcode (fetch s) = 2 := by omega
  have h3 : ¬ opcode (fetch s) = 3 := by omega
  have h4 : ¬ opcode (fetch s) = 4 := by omega
  have h5 : ¬ opcode (fetch s) = 5 := by omega
  have h6 : ¬ opcode (fetch s) = 6 := by omega
  have h7 : ¬ opcode (fetch s) = 7 := by omega
  simp only [hfetch, if_neg h0, if_neg h1, if_neg h2, if_neg h3, if_neg h4, if_neg h5,
    if_neg h6, if_neg h7]

/-! ## The halt condition -/

/-- C5, the claim as stated fails: started by `main` on an image holding
`addi $1,$0,-1`, `jr $1` and, at address 8191, `j 8191`, the loop reaches
that jump with `pc = 65535`; the target equals `pc mod 8192`, but the pass
leaves `halt` false, and the same instruction is fetched a second time
before the loop stops. -/
theorem self_jump_counterexample :
    (iterate_body [64, 1, 4] 2
        (initial_state far_jump_image { levels_vec := [fresh_level 64 1 4] })).map
      (fun t => (t.pc, t.halt, opcode (fetch t), bits0_12 (fetch t), t.pc % 8192))
      = some (65535, false, 2, 8191, 8191) ∧
    (iterate_body [64, 1, 4] 3
        (initial_state far_jump_image { levels_vec := [fresh_level 64 1 4] })).map
      (fun t => (t.pc, t.halt)) = some (8191, false) ∧
    (iterate_body [64, 1, 4] 4
        (initial_state far_jump_image { levels_vec := [fresh_level 64 1 4] })).map
      (fun t => (t.pc, t.halt)) = some (8191, true) := by
  refine ⟨?_, ?_, ?_⟩ <;> decide

theorem bits0_12_eq (x : Nat) : bits0_12 x = x % 8192 :=
  Nat.and_pow_two_sub_one_eq_mod x 13

theorem while_loop_halted (parts : List Int) (fuel : Nat) (s : State) (h : s.halt = true) :
    while_loop parts fuel s = some s := by
  cases fuel <;> simp [while_loop, h]

theorem while_loop_step (parts : List Int) (fuel : Nat) (s t : State) (h : s.halt = false)
    (hb : loop_body parts s = some t) :
    while_loop parts (fuel + 1) s = while_loop parts fuel t := by
  rw [while_loop]
  simp [h, hb]

/-- C5, amended: when the fetched instruction is a `j` whose 13-bit target
equals `pc mod 8192` and `pc` is below 8192, the pass sets `halt`, and the
loop ends after this single pass; when `pc` is 8192 or more, the pass leaves
`halt` false and sets `pc` to the target, the loop cannot end after one pass,
and it ends after a second pass that fetches the same instruction again. -/
theorem self_jump_halts (parts : List Int) (s : State) (fuel : Nat) (hrun : s.halt = false)
    (hop : opcode (fetch s) = 2) (ht : bits0_12 (fetch s) = s.pc % 8192) :
    (s.pc < 8192 →
      loop_body parts s = some { s with halt := true } ∧
      while_loop parts (fuel + 1) s = some { s with halt := true }) ∧
    (8192 ≤ s.pc →
      loop_body parts s = some { s with pc := s.pc % 8192 } ∧
      while_loop parts 1 s = none ∧
      while_loop parts (fuel + 2) s = some { s with pc := s.pc % 8192, halt := true }) := by
  constructor
  · intro hlt
    have hpc : s.pc % 8192 = s.pc := Nat.mod_eq_of_lt hlt
    have hb : loop_body parts s = some { s with halt := true } := by
      rw [loop_body_j parts s hop, ht, hpc]
      simp
    refine ⟨hb, ?_⟩
    rw [while_loop_step parts fuel s _ hrun hb]
    exact while_loop_halted parts fuel _ rfl
  · intro hge
    have hne : s.pc ≠ s.pc % 8192 := by omega
    have hb : loop_body parts s = some { s with pc := s.pc % 8192 } := by
      rw [loop_body_j parts s hop, ht]
      simp [hne, hrun]
    have hf : fetch { s with pc := s.pc % 8192 } = fetch s := by
      simp [fetch, MEM_SIZE]
    have hb2 : loop_body parts { s with pc := s.pc % 8192 }
        = some { s with pc := s.pc % 8192, halt := true } := by
      rw [loop_body_j parts _ (by rw [hf]; exact hop), hf, ht]
      simp
    refine ⟨hb, ?_, ?_⟩
    · rw [while_loop_step parts 0 s _ hrun hb]
      simp [while_loop, hrun]
    · rw [while_loop_step parts (fuel + 1) s _ hrun hb,
        while_loop_step parts fuel { s with pc := s.pc % 8192 } _ hrun hb2]
      exact while_loop_halted parts fuel _ rfl


/-- C5 (amended) at concrete inputs: `j 3` executed at `pc = 3`, and
`j 8191` executed at `pc = 65535`. -/
theorem self_jump_halts_witness :
    (loop_body [64, 1, 4] self_jump_state = some { self_jump_state with halt := true } ∧
      while_loop [64, 1, 4] 1 self_jump_state = some { self_jump_state with halt := true }) ∧
    (loop_body [64, 1, 4] far_jump_state
        = some { far_jump_state with pc := far_jump_state.pc % 8192 } ∧
      while_loop [64, 1, 4] 1 far_jump_state = none ∧
      while_loop [64, 1, 4] 2 far_jump_state
        = some { far_jump_state with pc := far_jump_state.pc % 8192, halt := true }) :=
  ⟨(self_jump_halts [64, 1, 4] self_jump_state 0 rfl (by decide) (by decide)).1 (by decide),
   (self_jump_halts [64, 1, 4] far_jump_state 0 rfl (by decide) (by decide)).2 (by decide)⟩

theorem opcode_cases (x : Nat) :
    opcode x = 0 ∨ opcode x = 1 ∨ opcode x = 2 ∨ opcode x = 3 ∨ opcode x = 4 ∨ opcode x = 5 ∨
      opcode x = 6 ∨ opcode x = 7 ∨ 7 < opcode x := by
  omega

theorem bits0_3_cases (x : Nat) :
    bits0_3 x = 0 ∨ bits0_3 x = 1 ∨ bits0_3 x = 2 ∨ bits0_3 x = 3 ∨ bits0_3 x = 4 ∨
      bits0_3 x = 8 ∨
      (bits0_3 x ≠ 0 ∧ bits0_3 x ≠ 1 ∧ bits0_3 x ≠ 2 ∧ bits0_3 x ≠ 3 ∧ bits0_3 x ≠ 4 ∧
        bits0_3 x ≠ 8) := by
  omega

theorem store_same (arr : Nat → Nat) (i v : Nat) : store arr i v i = v := by
  simp [store]

theorem store_other (arr : Nat → Nat) (i v j : Nat) (h : j ≠ i) : store arr i v j = arr j := by
  simp [store, h]

/-- What one pass does to `halt` and to register 0, for every instruction. -/
theorem loop_body_frame (parts : List Int) (s t : State) (h : loop_body parts s = some t) :
    (t.halt = if opcode (fetch s) = 2 ∧ s.pc = bits0_12 (fetch s) then true else s.halt) ∧
    (s.regs_arr 0 = 0 → t.regs_arr 0 = 0) := by
  rcases opcode_cases (fetch s) with h0 | h1 | h2 | h3 | h4 | h5 | h6 | h7 | h8
  · rcases bits0_3_cases (fetch s) with f | f | f | f | f | f | ⟨f0, f1, f2, f3, f4, f8⟩
    · rw [loop_body_add parts s h0 f] at h
      cases h
      simp [h0, store_same]
    · rw [loop_body_sub parts s h0 f] at h
      cases h
      simp [h0, store_same]
    · rw [loop_body_or parts s h0 f] at h
      cases h
      simp [h0, store_same]
    · rw [loop_body_and parts s h0 f] at h
      cases h
      simp [h0, store_same]
    · rw [loop_body_slt parts s h0 f] at h
      cases h
      simp [h0, store_same]
    · rw [loop_body_jr parts s h0 f] at h
      cases h
      simp [h0, store_same]
    · rw [loop_body_unlisted parts s h0 f0 f1 f2 f3 f4 f8] at h
      cases h
      simp [h0, store_same]
  · rw [loop_body_addi parts s h1] at h
    cases h
    simp [h1, store_same]
  · rw [loop_body_j parts s h2] at h
    cases h
    simp [h2]
  · rw [loop_body_jal parts s h3] at h
    cases h
    simp [h3, store_other]
  · rw [loop_body_lw parts s h4] at h
    split at h
    · cases h
    · cases h
      simp [h4, store_same]
  · rw [loop_body_sw parts s h5] at h
    split at h
    · cases h
    · cases h
      simp [h5]
  · rw [loop_body_jeq parts s h6] at h
    cases h
    simp [h6]
  · rw [loop_body_slti parts s h7] at h
    cases h
    simp [h7, store_same]
  · rw [loop_body_no_opcode parts s h8] at h
    cases h
    have : ¬ opcode (fetch s) = 2 := by omega
    simp [this]

theorem loop_body_defined (parts : List Int) (s : State) (hc : cache_shaped parts s.a_cache) :
    ∃ t, loop_body parts s = some t ∧ cache_shaped parts t.a_cache := by
  rcases opcode_cases (fetch s) with h0 | h1 | h2 | h3 | h4 | h5 | h6 | h7 | h8
  · rcases bits0_3_cases (fetch s) with f | f | f | f | f | f | ⟨f0, f1, f2, f3, f4, f8⟩
    · exact ⟨_, loop_body_add parts s h0 f, hc⟩
    · exact ⟨_, loop_body_sub parts s h0 f, hc⟩
    · exact ⟨_, loop_body_or parts s h0 f, hc⟩
    · exact ⟨_, loop_body_and parts s h0 f, hc⟩
    · exact ⟨_, loop_body_slt parts s h0 f, hc⟩
    · exact ⟨_, loop_body_jr parts s h0 f, hc⟩
    · exact ⟨_, loop_body_unlisted parts s h0 f0 f1 f2 f3 f4 f8, hc⟩
  · exact ⟨_, loop_body_addi parts s h1, hc⟩
  · exact ⟨_, loop_body_j parts s h2, hc⟩
  · exact ⟨_, loop_body_jal parts s h3, hc⟩
  · obtain ⟨c', entries, hsim, hc'⟩ := simulate_defined
      (((s.regs_arr (bits10_12 (fetch s)) + bits0_6 (fetch s)) % MEM_SIZE) % 65536)
      ((s.pc % MEM_SIZE) % 65536) s.a_cache parts false hc (Nat.mod_lt _ (by norm_num))
    rw [loop_body_lw parts s h4, hsim]
    exact ⟨_, rfl, hc'⟩
  · obtain ⟨c', entries, hsim, hc'⟩ := simulate_defined
      (((s.regs_arr (bits10_12 (fetch s)) + bits0_6 (fetch s)) % MEM_SIZE) % 65536)
      ((s.pc % MEM_SIZE) % 65536) s.a_cache parts true hc (Nat.mod_lt _ (by norm_num))
    rw [loop_body_sw parts s h5, hsim]
    exact ⟨_, rfl, hc'⟩
  · exact ⟨_, loop_body_jeq parts s h6, hc⟩
  · exact ⟨_, loop_body_slti parts s h7, hc⟩
  · exact ⟨_, loop_body_no_opcode parts s h8, hc⟩

theorem iterate_body_defined (parts : List Int) (n : Nat) (s : State)
    (hc : cache_shaped parts s.a_cache) : ∃ t, iterate_body parts n s = some t := by
  induction n generalizing s with
  | zero => exact ⟨s, rfl⟩
  | succ k ih =>
    obtain ⟨t, ht, hct⟩ := loop_body_defined parts s hc
    obtain ⟨u, hu⟩ := ih t hct
    refine ⟨u, ?_⟩
    rw [iterate_body, ht]
    exact hu

theorem iterate_body_regs0 (parts : List Int) (n : Nat) (s t : State) (h0 : s.regs_arr 0 = 0)
    (h : iterate_body parts n s = some t) : t.regs_arr 0 = 0 := by
  induction n generalizing s with
  | zero =>
    simp only [iterate_body, Option.some.injEq] at h
    rw [← h]; exact h0
  | succ k ih =>
    rw [iterate_body] at h
    cases hb : loop_body parts s with
    | none => rw [hb] at h; cases h
    | some u =>
      rw [hb] at h
      exact ih u ((loop_body_frame parts s u hb).2 h0) h

theorem bits0_12_lt (x : Nat) : bits0_12 x < 8192 := by
  rw [bits0_12_eq]
  exact Nat.mod_lt _ (by norm_num)

/-- C6: one pass sets `halt` only when the executed instruction is a `j`
whose 13-bit target equals `pc mod 8192`, the address it was fetched from; an
instruction of any other opcode, and a `j` to another target, leave `halt`
false. -/
theorem halt_only_on_self_jump (parts : List Int) (s t : State) (hrun : s.halt = false)
    (hstep : loop_body parts s = some t) :
    (t.halt = true → opcode (fetch s) = 2 ∧ bits0_12 (fetch s) = s.pc % 8192) ∧
    (opcode (fetch s) ≠ 2 → t.halt = false) ∧
    (opcode (fetch s) = 2 → bits0_12 (fetch s) ≠ s.pc % 8192 → t.halt = false) := by
  have hh := (loop_body_frame parts s t hstep).1
  rw [hrun] at hh
  have key : t.halt = true → opcode (fetch s) = 2 ∧ bits0_12 (fetch s) = s.pc % 8192 := by
    intro ht
    rw [hh] at ht
    by_cases hc : opcode (fetch s) = 2 ∧ s.pc = bits0_12 (fetch s)
    · refine ⟨hc.1, ?_⟩
      have hlt := bits0_12_lt (fetch s)
      rw [← hc.2] at hlt
      rw [← hc.2]
      exact (Nat.mod_eq_of_lt hlt).symm
    · rw [if_neg hc] at ht
      cases ht
  refine ⟨key, ?_, ?_⟩
  · intro hne
    cases hth : t.halt with
    | false => rfl
    | true => exact absurd (key hth).1 hne
  · intro _ hne
    cases hth : t.halt with
    | false => rfl
    | true => exact absurd (key hth).2 hne

/-- C6 at a concrete input: the pass that executes `j 3` at `pc = 3`. -/
theorem halt_only_on_self_jump_witness :
    opcode (fetch self_jump_state) = 2 ∧
      bits0_12 (fetch self_jump_state) = self_jump_state.pc % 8192 :=
  (halt_only_on_self_jump [64, 1, 4] self_jump_state { self_jump_state with halt := true }
    rfl rfl).1 rfl

/-- C7: a pass that starts with register 0 equal to 0 ends with register 0
equal to 0, whatever the instruction word, also when its destination field
names register 0; hence register 0 is 0 in every state reached from the
state in which `main` enters the loop, and on a cache of the shape of its
configuration every such state exists. -/
theorem register_zero_invariant (parts : List Int) :
    (∀ s t : State, s.regs_arr 0 = 0 → loop_body parts s = some t → t.regs_arr 0 = 0) ∧
    (∀ (n : Nat) (memory_arr : Nat → Nat) (a_cache : Cache) (t : State),
      iterate_body parts n (initial_state memory_arr a_cache) = some t → t.regs_arr 0 = 0) ∧
    (∀ (n : Nat) (memory_arr : Nat → Nat) (a_cache : Cache), cache_shaped parts a_cache →
      (iterate_body parts n (initial_state memory_arr a_cache)).isSome = true) := by
  refine ⟨?_, ?_, ?_⟩
  · intro s t h0 h
    exact (loop_body_frame parts s t h).2 h0
  · intro n memory_arr a_cache t h
    exact iterate_body_regs0 parts n _ t rfl h
  · intro n memory_arr a_cache hc
    obtain ⟨t, ht⟩ := iterate_body_defined parts n (initial_state memory_arr a_cache) hc
    rw [ht]
    rfl

/-- C7 at a concrete input: `addi $0,$0,5` executed from the initial state. -/
theorem register_zero_invariant_witness :
    ({ initial_state addi_zero_image { levels_vec := [fresh_level 64 1 4] } with
        regs_arr := store (store (fun _ => 0) 0 5) 0 0, pc := 1 } : State).regs_arr 0 = 0 ∧
    (iterate_body [64, 1, 4] 3
      (initial_state addi_zero_image { levels_vec := [fresh_level 64 1 4] })).isSome = true :=
  ⟨(register_zero_invariant [64, 1, 4]).1
      (initial_state addi_zero_image { levels_vec := [fresh_level 64 1 4] }) _ rfl rfl,
   (register_zero_invariant [64, 1, 4]).2.2 3 addi_zero_image
      { levels_vec := [fresh_level 64 1 4] } (by decide)⟩


/-! ## `slti` -/

theorem sign_extend7_func_eq (v : Nat) (hv : v < 128) : sign_extend7_func v = sext7 v := by
  have key : ∀ w, w < 128 → sign_extend7_func w = sext7 w := by decide
  exact key v hv

theorem bits0_6_eq (x : Nat) : bits0_6 x = sext7 (x % 128) := by
  have h : x &&& 127 = x % 128 := Nat.and_pow_two_sub_one_eq_mod x 7
  unfold bits0_6
  rw [h]
  exact sign_extend7_func_eq _ (Nat.mod_lt _ (by norm_num))

/-- C8, the claim as stated fails: after `addi $1,$0,63` and `addi $1,$1,37`
register 1 holds 100, and `slti $2,$1,65` then sets register 2 to 1, although
100 is not less than the zero-extended immediate 65. -/
theorem slti_counterexample :
    (iterate_body [64, 1, 4] 2
        (initial_state slti_image { levels_vec := [fresh_level 64 1 4] })).map
      (fun t => (opcode (fetch t), bits10_12 (fetch t), bits7_9 (fetch t), fetch t % 128,
        t.regs_arr 1)) = some (7, 1, 2, 65, 100) ∧
    (iterate_body [64, 1, 4] 3
        (initial_state slti_image { levels_vec := [fresh_level 64 1 4] })).map
      (fun t => t.regs_arr 2) = some 1 ∧
    ¬ (100 < 65) := by
  refine ⟨?_, ?_, ?_⟩ <;> decide

/-- C8, amended: for an `slti` one pass sets register `rt` to 1 when the
value of register `rs` is less than the sign-extended 7-bit immediate read as
an unsigned 16-bit value (the immediate itself below 64, the immediate plus
65408 from 64 on) and to 0 otherwise, register 0 ending as 0; the other
registers, memory, cache and `halt` are unchanged and `pc` advances by 1
modulo 2^16. -/
theorem slti_semantics (parts : List Int) (s : State) (hop : opcode (fetch s) = 7) :
    ∃ t, loop_body parts s = some t ∧
      t.regs_arr 0 = 0 ∧
      (bits7_9 (fetch s) ≠ 0 →
        t.regs_arr (bits7_9 (fetch s))
          = if s.regs_arr (bits10_12 (fetch s)) < sext7 (fetch s % 128) then 1 else 0) ∧
      (∀ i, i ≠ bits7_9 (fetch s) → i ≠ 0 → t.regs_arr i = s.regs_arr i) ∧
      t.pc = (s.pc + 1) % 65536 ∧
      t.memory_arr = s.memory_arr ∧ t.a_cache = s.a_cache ∧ t.halt = s.halt ∧
      t.out = s.out := by
  refine ⟨_, loop_body_slti parts s hop, ?_, ?_, ?_, rfl, rfl, rfl, rfl, rfl⟩
  · simp only [store_same]
  · intro hrt
    simp only [store_other _ _ _ _ hrt, store_same, bits0_6_eq]
  · intro i hi h0
    simp only [store_other _ _ _ _ h0, store_other _ _ _ _ hi]

/-- C8 (amended) at a concrete input: `slti $2,$1,65` with 100 in register 1. -/
theorem slti_semantics_witness :
    ∃ t, loop_body [64, 1, 4]
        { regs_arr := fun r => if r = 1 then 100 else 0, pc := 2, memory_arr := slti_image,
          a_cache := { levels_vec := [fresh_level 64 1 4] }, halt := false, out := [] } = some t ∧
      t.regs_arr 0 = 0 ∧
      (2 ≠ 0 → t.regs_arr 2 = if 100 < sext7 65 then 1 else 0) ∧
      (∀ i, i ≠ 2 → i ≠ 0 → t.regs_arr i = if i = 1 then 100 else 0) ∧
      t.pc = 3 ∧
      t.memory_arr = slti_image ∧ t.a_cache = { levels_vec := [fresh_level 64 1 4] } ∧
      t.halt = false ∧ t.out = [] :=
  slti_semantics [64, 1, 4]
    { regs_arr := fun r => if r = 1 then 100 else 0, pc := 2, memory_arr := slti_image,
      a_cache := { levels_vec := [fresh_level 64 1 4] }, halt := false, out := [] } (by decide)

/-! ## Function codes outside the opcode table -/

theorem store_idem (arr : Nat → Nat) (i v : Nat) : store (store arr i v) i v = store arr i v := by
  funext j
  by_cases h : j = i <;> simp [store, h]

/-- For opcode 0 with a function code that the table does not list, the pass
does not advance `pc`; the loop then fetches the same word for ever. -/
theorem unlisted_stalls (parts : List Int) (s : State) (hrun : s.halt = false)
    (h : opcode (fetch s) = 0)
    (h0 : bits0_3 (fetch s) ≠ 0) (h1 : bits0_3 (fetch s) ≠ 1) (h2 : bits0_3 (fetch s) ≠ 2)
    (h3 : bits0_3 (fetch s) ≠ 3) (h4 : bits0_3 (fetch s) ≠ 4) (h8 : bits0_3 (fetch s) ≠ 8) :
    loop_body parts s = some { s with regs_arr := store s.regs_arr 0 0 } ∧
      ∀ fuel, while_loop parts fuel s = none := by
  have hb := loop_body_unlisted parts s h h0 h1 h2 h3 h4 h8
  have hb1 : loop_body parts { s with regs_arr := store s.regs_arr 0 0 }
      = some { s with regs_arr := store s.regs_arr 0 0 } := by
    rw [loop_body_unlisted parts { s with regs_arr := store s.regs_arr 0 0 } h h0 h1 h2 h3 h4 h8]
    simp only [store_idem]
  have hloop : ∀ fuel, while_loop parts fuel { s with regs_arr := store s.regs_arr 0 0 }
      = none := by
    intro fuel
    induction fuel with
    | zero => simp [while_loop, hrun]
    | succ k ih =>
      rw [while_loop_step parts k { s with regs_arr := store s.regs_arr 0 0 } _ hrun hb1]
      exact ih
  refine ⟨hb, ?_⟩
  intro fuel
  cases fuel with
  | zero => simp [while_loop, hrun]
  | succ k =>
    rw [while_loop_step parts k s _ hrun hb]
    exact hloop k

/-- C9, the code at the failing input: with the word 5 (opcode 0, function
code 5) at address 0, the first pass of the loop started by `main` leaves
`pc` at 0 instead of 1, and the loop never ends. -/
theorem unlisted_opcode_stalls :
    (loop_body [64, 1, 4]
        (initial_state unlisted_image { levels_vec := [fresh_level 64 1 4] })).map
      (fun t => (t.pc, t.halt)) = some (0, false) ∧
    ∀ fuel, while_loop [64, 1, 4] fuel
      (initial_state unlisted_image { levels_vec := [fresh_level 64 1 4] }) = none := by
  have h := unlisted_stalls [64, 1, 4]
    (initial_state unlisted_image { levels_vec := [fresh_level 64 1 4] }) rfl
    (by decide) (by decide) (by decide) (by decide) (by decide) (by decide) (by decide)
  refine ⟨?_, h.2⟩
  rw [h.1]
  rfl

/-! ## `lw` -/

/-- C10: for an `lw`, on a cache of the shape of its configuration, one pass
computes `addr = ((regs[rs] + sext7(imm)) mod 2^16) mod 8192`, which is below
8192, makes exactly one call of `simulate_cache_access`, a load of `addr`
traced with `pc mod 8192`, whose cache and entries it keeps, then sets
register `rt` to `memory[addr]`, register 0 ending as 0; memory and the other
registers are unchanged (register 0 too when it held 0, as it does in every
reachable state) and `pc` advances by 1 modulo 2^16. -/
theorem lw_semantics (parts : List Int) (s : State) (hop : opcode (fetch s) = 4)
    (hc : cache_shaped parts s.a_cache) :
    ∃ cache entries t,
      simulate_cache_access
          ((s.regs_arr (bits10_12 (fetch s)) + sext7 (fetch s % 128)) % 65536 % 8192)
          (s.pc % 8192) s.a_cache parts false = some (cache, entries) ∧
      (s.regs_arr (bits10_12 (fetch s)) + sext7 (fetch s % 128)) % 65536 % 8192 < 8192 ∧
      loop_body parts s = some t ∧
      t.a_cache = cache ∧ t.out = s.out ++ entries ∧
      t.regs_arr 0 = 0 ∧
      (bits7_9 (fetch s) ≠ 0 →
        t.regs_arr (bits7_9 (fetch s))
          = s.memory_arr
              ((s.regs_arr (bits10_12 (fetch s)) + sext7 (fetch s % 128)) % 65536 % 8192)) ∧
      (∀ i, i ≠ bits7_9 (fetch s) → i ≠ 0 → t.regs_arr i = s.regs_arr i) ∧
      (s.regs_arr 0 = 0 → ∀ i, i ≠ bits7_9 (fetch s) → t.regs_arr i = s.regs_arr i) ∧
      t.memory_arr = s.memory_arr ∧
      t.pc = (s.pc + 1) % 65536 ∧
      t.halt = s.halt := by
  have haddr : ((s.regs_arr (bits10_12 (fetch s)) + bits0_6 (fetch s)) % MEM_SIZE) % 65536
      = (s.regs_arr (bits10_12 (fetch s)) + sext7 (fetch s % 128)) % 65536 % 8192 := by
    rw [bits0_6_eq]
    unfold MEM_SIZE
    omega
  have hidx : (s.pc % MEM_SIZE) % 65536 = s.pc % 8192 := by
    unfold MEM_SIZE
    omega
  have hlt : (s.regs_arr (bits10_12 (fetch s)) + sext7 (fetch s % 128)) % 65536 % 8192 < 8192 :=
    Nat.mod_lt _ (by norm_num)
  obtain ⟨cache, entries, hsim, -⟩ := simulate_defined
    ((s.regs_arr (bits10_12 (fetch s)) + sext7 (fetch s % 128)) % 65536 % 8192)
    (s.pc % 8192) s.a_cache parts false hc (by omega)
  have hb := loop_body_lw parts s hop
  rw [haddr, hidx, hsim] at hb
  refine ⟨cache, entries, _, hsim, hlt, hb, rfl, rfl, ?_, ?_, ?_, ?_, rfl, rfl, rfl⟩
  · simp only [store_same]
  · intro hrt
    simp only [store_other _ _ _ _ hrt, store_same]
  · intro i hi h0
    simp only [store_other _ _ _ _ h0, store_other _ _ _ _ hi]
  · intro hz i hi
    by_cases h0 : i = 0
    · subst h0
      simp only [store_same, hz]
    · simp only [store_other _ _ _ _ h0, store_other _ _ _ _ hi]

/-- C10 at a concrete input: `lw $2, 1($1)` with 4 in register 1. -/
theorem lw_semantics_witness :
    ∃ cache entries t,
      simulate_cache_access 5 0 lw_state.a_cache [64, 1, 4] false = some (cache, entries) ∧
      5 < 8192 ∧
      loop_body [64, 1, 4] lw_state = some t ∧
      t.a_cache = cache ∧ t.out = lw_state.out ++ entries ∧
      t.regs_arr 0 = 0 ∧
      (2 ≠ 0 → t.regs_arr 2 = 77) ∧
      (∀ i, i ≠ 2 → i ≠ 0 → t.regs_arr i = lw_state.regs_arr i) ∧
      (lw_state.regs_arr 0 = 0 → ∀ i, i ≠ 2 → t.regs_arr i = lw_state.regs_arr i) ∧
      t.memory_arr = lw_state.memory_arr ∧
      t.pc = 1 ∧
      t.halt = false :=
  lw_semantics [64, 1, 4] lw_state (by decide) (by decide)


/-! ## `sw` -/

/-- C11: for an `sw`, on a cache of the shape of its configuration, one pass
computes `addr = ((regs[rs] + sext7(imm)) mod 2^16) mod 8192`, makes exactly
one call of `simulate_cache_access`, a store to `addr`, whose cache and
entries it keeps, sets `memory[addr]` to the value of register `rt`, leaves
every other memory cell and all registers unchanged, and advances `pc` by 1
modulo 2^16. -/
theorem sw_semantics (parts : List Int) (s : State) (hop : opcode (fetch s) = 5)
    (hc : cache_shaped parts s.a_cache) :
    ∃ cache entries t,
      simulate_cache_access
          ((s.regs_arr (bits10_12 (fetch s)) + sext7 (fetch s % 128)) % 65536 % 8192)
          (s.pc % 8192) s.a_cache parts true = some (cache, entries) ∧
      loop_body parts s = some t ∧
      t.a_cache = cache ∧ t.out = s.out ++ entries ∧
      t.memory_arr ((s.regs_arr (bits10_12 (fetch s)) + sext7 (fetch s % 128)) % 65536 % 8192)
        = s.regs_arr (bits7_9 (fetch s)) ∧
      (∀ a, a ≠ (s.regs_arr (bits10_12 (fetch s)) + sext7 (fetch s % 128)) % 65536 % 8192 →
        t.memory_arr a = s.memory_arr a) ∧
      t.regs_arr = s.regs_arr ∧
      t.pc = (s.pc + 1) % 65536 ∧
      t.halt = s.halt := by
  have haddr : ((s.regs_arr (bits10_12 (fetch s)) + bits0_6 (fetch s)) % MEM_SIZE) % 65536
      = (s.regs_arr (bits10_12 (fetch s)) + sext7 (fetch s % 128)) % 65536 % 8192 := by
    rw [bits0_6_eq]
    unfold MEM_SIZE
    omega
  have hidx : (s.pc % MEM_SIZE) % 65536 = s.pc % 8192 := by
    unfold MEM_SIZE
    omega
  obtain ⟨cache, entries, hsim, -⟩ := simulate_defined
    ((s.regs_arr (bits10_12 (fetch s)) + sext7 (fetch s % 128)) % 65536 % 8192)
    (s.pc % 8192) s.a_cache parts true hc (by omega)
  have hb := loop_body_sw parts s hop
  rw [haddr, hidx, hsim] at hb
  refine ⟨cache, entries, _, hsim, hb, rfl, rfl, ?_, ?_, rfl, rfl, rfl⟩
  · simp only [store_same]
  · intro a ha
    simp only [store_other _ _ _ _ ha]

/-- C11 at a concrete input: `sw $2, 1($1)` with 4 in register 1 and 9 in
register 2. -/
theorem sw_semantics_witness :
    ∃ cache entries t,
      simulate_cache_access 5 0 sw_state.a_cache [64, 1, 4] true = some (cache, entries) ∧
      loop_body [64, 1, 4] sw_state = some t ∧
      t.a_cache = cache ∧ t.out = sw_state.out ++ entries ∧
      t.memory_arr 5 = 9 ∧
      (∀ a, a ≠ 5 → t.memory_arr a = sw_state.memory_arr a) ∧
      t.regs_arr = sw_state.regs_arr ∧
      t.pc = 1 ∧
      t.halt = false :=
  sw_semantics [64, 1, 4] sw_state (by decide) (by decide)

/-! ## `add`, `sub`, `or`, `and`, `slt` -/

theorem toU16_cast (x : Int) : ((toU16 x : Nat) : Int) = x % 65536 := by
  unfold toU16
  exact Int.toNat_of_nonneg (Int.emod_nonneg x (by norm_num))

theorem or_mod_u16 (a b : Nat) (ha : a < 65536) (hb : b < 65536) :
    (a ||| b) % 65536 = a ||| b := by
  apply Nat.mod_eq_of_lt
  exact Nat.or_lt_two_pow (n := 16) ha hb

theorem and_mod_u16 (a b : Nat) (hb : b < 65536) : (a &&& b) % 65536 = a &&& b := by
  apply Nat.mod_eq_of_lt
  exact Nat.and_lt_two_pow a (n := 16) hb

/-- The registers after an instruction that writes `v` to register `rd` and
then clears register 0. -/
theorem store_store_zero (regs : Nat → Nat) (rd v : Nat) :
    store (store regs rd v) 0 0 0 = 0 ∧
    (rd ≠ 0 → store (store regs rd v) 0 0 rd = v) ∧
    (∀ i, i ≠ rd → i ≠ 0 → store (store regs rd v) 0 0 i = regs i) ∧
    (regs 0 = 0 → ∀ i, i ≠ rd → store (store regs rd v) 0 0 i = regs i) := by
  refine ⟨store_same _ _ _, ?_, ?_, ?_⟩
  · intro h
    rw [store_other _ _ _ _ h, store_same]
  · intro i hi h0
    rw [store_other _ _ _ _ h0, store_other _ _ _ _ hi]
  · intro hz i hi
    by_cases h0 : i = 0
    · subst h0
      rw [store_same, hz]
    · rw [store_other _ _ _ _ h0, store_other _ _ _ _ hi]

/-- C12: for an opcode-0 instruction with function code 0, 1, 2, 3 or 4, on
16-bit register values, one pass sets register `rd` to the sum modulo 2^16,
the difference modulo 2^16, the bitwise or, the bitwise and, or the unsigned
comparison of registers `rs` and `rt`, except that register 0 ends as 0 (a
write to it is discarded); the other registers (register 0 too when it held
0), memory, cache and `halt` are unchanged and `pc` advances by 1 modulo
2^16. -/
theorem alu_semantics (parts : List Int) (s : State) (hop : opcode (fetch s) = 0)
    (hf : bits0_3 (fetch s) ≤ 4)
    (hrs : s.regs_arr (bits10_12 (fetch s)) < 65536)
    (hrt : s.regs_arr (bits7_9 (fetch s)) < 65536) :
    ∃ t, loop_body parts s = some t ∧
      t.regs_arr 0 = 0 ∧
      (bits4_6 (fetch s) ≠ 0 →
        (bits0_3 (fetch s) = 0 → t.regs_arr (bits4_6 (fetch s))
          = (s.regs_arr (bits10_12 (fetch s)) + s.regs_arr (bits7_9 (fetch s))) % 65536) ∧
        (bits0_3 (fetch s) = 1 → ((t.regs_arr (bits4_6 (fetch s)) : Nat) : Int)
          = ((s.regs_arr (bits10_12 (fetch s)) : Int) - (s.regs_arr (bits7_9 (fetch s)) : Int))
              % 65536) ∧
        (bits0_3 (fetch s) = 2 → t.regs_arr (bits4_6 (fetch s))
          = s.regs_arr (bits10_12 (fetch s)) ||| s.regs_arr (bits7_9 (fetch s))) ∧
        (bits0_3 (fetch s) = 3 → t.regs_arr (bits4_6 (fetch s))
          = s.regs_arr (bits10_12 (fetch s)) &&& s.regs_arr (bits7_9 (fetch s))) ∧
        (bits0_3 (fetch s) = 4 → t.regs_arr (bits4_6 (fetch s))
          = if s.regs_arr (bits10_12 (fetch s)) < s.regs_arr (bits7_9 (fetch s))
              then 1 else 0)) ∧
      (∀ i, i ≠ bits4_6 (fetch s) → i ≠ 0 → t.regs_arr i = s.regs_arr i) ∧
      (s.regs_arr 0 = 0 → ∀ i, i ≠ bits4_6 (fetch s) → t.regs_arr i = s.regs_arr i) ∧
      t.memory_arr = s.memory_arr ∧ t.a_cache = s.a_cache ∧ t.out = s.out ∧
      t.halt = s.halt ∧
      t.pc = (s.pc + 1) % 65536 := by
  have hcases : bits0_3 (fetch s) = 0 ∨ bits0_3 (fetch s) = 1 ∨ bits0_3 (fetch s) = 2 ∨
      bits0_3 (fetch s) = 3 ∨ bits0_3 (fetch s) = 4 := by omega
  rcases hcases with f | f | f | f | f
  · obtain ⟨z, w, o, oz⟩ := store_store_zero s.regs_arr (bits4_6 (fetch s))
      ((s.regs_arr (bits10_12 (fetch s)) + s.regs_arr (bits7_9 (fetch s))) % 65536)
    refine ⟨_, loop_body_add parts s hop f, z, ?_, o, oz, rfl, rfl, rfl, rfl, rfl⟩
    intro hrd
    refine ⟨fun _ => w hrd, ?_, ?_, ?_, ?_⟩ <;> intro h <;> omega
  · obtain ⟨z, w, o, oz⟩ := store_store_zero s.regs_arr (bits4_6 (fetch s))
      (toU16 ((s.regs_arr (bits10_12 (fetch s)) : Int) - (s.regs_arr (bits7_9 (fetch s)) : Int)))
    refine ⟨_, loop_body_sub parts s hop f, z, ?_, o, oz, rfl, rfl, rfl, rfl, rfl⟩
    intro hrd
    refine ⟨?_, ?_, ?_, ?_, ?_⟩
    · intro h; omega
    · intro _
      show ((store (store s.regs_arr (bits4_6 (fetch s)) (toU16 _)) 0 0 (bits4_6 (fetch s))
        : Nat) : Int) = _
      rw [w hrd, toU16_cast]
    · intro h; omega
    · intro h; omega
    · intro h; omega
  · obtain ⟨z, w, o, oz⟩ := store_store_zero s.regs_arr (bits4_6 (fetch s))
      ((s.regs_arr (bits10_12 (fetch s)) ||| s.regs_arr (bits7_9 (fetch s))) % 65536)
    refine ⟨_, loop_body_or parts s hop f, z, ?_, o, oz, rfl, rfl, rfl, rfl, rfl⟩
    intro hrd
    refine ⟨?_, ?_, ?_, ?_, ?_⟩
    · intro h; omega
    · intro h; omega
    · intro _
      exact (w hrd).trans (or_mod_u16 _ _ hrs hrt)
    · intro h; omega
    · intro h; omega
  · obtain ⟨z, w, o, oz⟩ := store_store_zero s.regs_arr (bits4_6 (fetch s))
      ((s.regs_arr (bits10_12 (fetch s)) &&& s.regs_arr (bits7_9 (fetch s))) % 65536)
    refine ⟨_, loop_body_and parts s hop f, z, ?_, o, oz, rfl, rfl, rfl, rfl, rfl⟩
    intro hrd
    refine ⟨?_, ?_, ?_, ?_, ?_⟩
    · intro h; omega
    · intro h; omega
    · intro h; omega
    · intro _
      exact (w hrd).trans (and_mod_u16 _ _ hrt)
    · intro h; omega
  · obtain ⟨z, w, o, oz⟩ := store_store_zero s.regs_arr (bits4_6 (fetch s))
      (if s.regs_arr (bits10_12 (fetch s)) < s.regs_arr (bits7_9 (fetch s)) then 1 else 0)
    refine ⟨_, loop_body_slt parts s hop f, z, ?_, o, oz, rfl, rfl, rfl, rfl, rfl⟩
    intro hrd
    refine ⟨?_, ?_, ?_, ?_, fun _ => w hrd⟩ <;> intro h <;> omega

/-- C12 at a concrete input: `sub $3,$1,$2` with 4 in register 1 and 9 in
register 2 leaves 65531 in register 3. -/
theorem alu_semantics_witness :
    ∃ t, loop_body [64, 1, 4] sub_state = some t ∧
      t.regs_arr 0 = 0 ∧
      (3 ≠ 0 →
        (1 = 0 → t.regs_arr 3 = (4 + 9) % 65536) ∧
        (1 = 1 → ((t.regs_arr 3 : Nat) : Int) = ((4 : Int) - 9) % 65536) ∧
        (1 = 2 → t.regs_arr 3 = 4 ||| 9) ∧
        (1 = 3 → t.regs_arr 3 = 4 &&& 9) ∧
        (1 = 4 → t.regs_arr 3 = if 4 < 9 then 1 else 0)) ∧
      (∀ i, i ≠ 3 → i ≠ 0 → t.regs_arr i = sub_state.regs_arr i) ∧
      (sub_state.regs_arr 0 = 0 → ∀ i, i ≠ 3 → t.regs_arr i = sub_state.regs_arr i) ∧
      t.memory_arr = sub_state.memory_arr ∧ t.a_cache = sub_state.a_cache ∧
      t.out = sub_state.out ∧ t.halt = false ∧ t.pc = 1 :=
  alu_semantics [64, 1, 4] sub_state (by decide) (by decide) (by decide) (by decide)

/-! ## `jeq` -/

theorem sext7_bits : ∀ imm, imm < 128 →
    sext7 imm < 65536 ∧
    (∀ i, i < 7 → (sext7 imm).testBit i = imm.testBit i) ∧
    (∀ i, i < 16 → 7 ≤ i → (sext7 imm).testBit i = imm.testBit 6) := by
  decide

/-- C13: for a `jeq` one pass sets `pc` to `(pc + 1 + sext7(imm)) mod 2^16`
when registers `rs` and `rt` hold equal values and to `(pc + 1) mod 2^16`
otherwise, where `sext7(imm)` is the 16-bit word whose bits 0 to 6 are those
of the immediate and whose bits 7 to 15 all repeat its bit 6; registers,
memory, cache, printed entries and `halt` are unchanged, so that no cache
access is made. -/
theorem jeq_semantics (parts : List Int) (s : State) (hop : opcode (fetch s) = 6) :
    loop_body parts s = some { s with
      pc := if s.regs_arr (bits10_12 (fetch s)) = s.regs_arr (bits7_9 (fetch s))
        then (s.pc + 1 + sext7 (fetch s % 128)) % 65536 else (s.pc + 1) % 65536 } ∧
    sext7 (fetch s % 128) < 65536 ∧
    (∀ i, i < 7 → (sext7 (fetch s % 128)).testBit i = (fetch s % 128).testBit i) ∧
    (∀ i, i < 16 → 7 ≤ i → (sext7 (fetch s % 128)).testBit i = (fetch s % 128).testBit 6) := by
  refine ⟨?_, sext7_bits (fetch s % 128) (Nat.mod_lt _ (by norm_num))⟩
  rw [loop_body_jeq parts s hop, bits0_6_eq]

/-- C13 at a concrete input: `jeq $1,$2,-3` at address 10 with equal
registers sets `pc` to 8. -/
theorem jeq_semantics_witness :
    loop_body [64, 1, 4] jeq_state = some { jeq_state with pc := 8 } :=
  (jeq_semantics [64, 1, 4] jeq_state (by decide)).1


/-! ## The access written out on a cache of the shape of its configuration -/

theorem update_blocks_last (bl bl' : List Block) (t : Nat) (h : update_blocks bl t = some bl') :
    bl'.getLast? = some { tag := t } := by
  unfold update_blocks at h
  split at h
  · simp only [Option.some.injEq] at h
    rw [← h]
    exact List.getLast?_concat _
  · split at h
    · cases h
    · simp only [Option.some.injEq] at h
      rw [← h]
      exact List.getLast?_concat _

theorem with_row_getElem?_self (lvl : Level) (r : Nat) (row new : Row) (bl : List Block)
    (hrow : lvl.rows_vec[r]? = some row) :
    (with_row lvl r new bl).rows_vec[r]? = some { new with blocks_vec := bl } := by
  have hlt : r < lvl.rows_vec.length := by
    by_contra hge
    rw [List.getElem?_eq_none (by omega)] at hrow
    cases hrow
  simp only [with_row]
  exact List.getElem?_set_self hlt

theorem with_row_getElem?_ne (lvl : Level) (r r' : Nat) (new : Row) (bl : List Block)
    (h : r' ≠ r) : (with_row lvl r new bl).rows_vec[r']? = lvl.rows_vec[r']? := by
  simp only [with_row]
  exact List.getElem?_set_ne (fun e => h e.symm)

/-- The access of a one-level cache of the shape of its configuration. -/
theorem simulate_spec_one (address index : Nat) (l1 : Level) (size assoc blocksize : Int)
    (st : Bool) (hg : valid_geometry size assoc blocksize)
    (hs : level_shaped size assoc blocksize l1) (haddr : address < 65536) :
    ∃ row bl, l1.rows_vec[row_of address size assoc blocksize]? = some row ∧
      row.blocks_vec ≠ [] ∧
      update_blocks row.blocks_vec (tag_of address size assoc blocksize) = some bl ∧
      simulate_cache_access address index { levels_vec := [l1] } [size, assoc, blocksize] st
        = some ({ levels_vec := [with_row l1 (row_of address size assoc blocksize) row bl] },
            [print_log_entry "L1"
              (status_of st (decide (tag_of address size assoc blocksize ∈ row_tags row)))
              index address (row_of address size assoc blocksize)]) := by
  obtain ⟨row, hrow, hne⟩ := shaped_row address hg hs
  obtain ⟨bl, hu, -, hacc⟩ := access_level_some "L1" l1 (row_of address size assoc blocksize)
    (tag_of address size assoc blocksize) index address st row hrow hne
  refine ⟨row, bl, hrow, hne, hu, ?_⟩
  rw [simulate_one_level address index l1 size assoc blocksize st hg haddr, hacc]
  rfl

/-- The access of a two-level cache of the shape of its configuration. -/
theorem simulate_spec_two (address index : Nat) (l1 l2 : Level)
    (size1 assoc1 blocksize1 size2 assoc2 blocksize2 : Int) (st : Bool)
    (hg1 : valid_geometry size1 assoc1 blocksize1) (hg2 : valid_geometry size2 assoc2 blocksize2)
    (hs1 : level_shaped size1 assoc1 blocksize1 l1) (hs2 : level_shaped size2 assoc2 blocksize2 l2)
    (haddr : address < 65536) :
    ∃ row1 bl1 row2 bl2,
      l1.rows_vec[row_of address size1 assoc1 blocksize1]? = some row1 ∧
      row1.blocks_vec ≠ [] ∧
      update_blocks row1.blocks_vec (tag_of address size1 assoc1 blocksize1) = some bl1 ∧
      l2.rows_vec[row_of address size2 assoc2 blocksize2]? = some row2 ∧
      row2.blocks_vec ≠ [] ∧
      update_blocks row2.blocks_vec (tag_of address size2 assoc2 blocksize2) = some bl2 ∧
      simulate_cache_access address index { levels_vec := [l1, l2] }
          [size1, assoc1, blocksize1, size2, assoc2, blocksize2] st
        = some (
            if (!decide (tag_of address size1 assoc1 blocksize1 ∈ row_tags row1) || st) = true
            then
              ({ levels_vec := [with_row l1 (row_of address size1 assoc1 blocksize1) row1 bl1,
                  with_row l2 (row_of address size2 assoc2 blocksize2) row2 bl2] },
                [print_log_entry "L1"
                  (status_of st (decide (tag_of address size1 assoc1 blocksize1 ∈ row_tags row1)))
                  index address (row_of address size1 assoc1 blocksize1),
                 print_log_entry "L2"
                  (status_of st (decide (tag_of address size2 assoc2 blocksize2 ∈ row_tags row2)))
                  index address (row_of address size2 assoc2 blocksize2)])
            else
              ({ levels_vec := [with_row l1 (row_of address size1 assoc1 blocksize1) row1 bl1,
                  l2] },
                [print_log_entry "L1"
                  (status_of st (decide (tag_of address size1 assoc1 blocksize1 ∈ row_tags row1)))
                  index address (row_of address size1 assoc1 blocksize1)])) := by
  obtain ⟨row1, hrow1, hne1⟩ := shaped_row address hg1 hs1
  obtain ⟨row2, hrow2, hne2⟩ := shaped_row address hg2 hs2
  obtain ⟨bl1, hu1, -, hacc1⟩ := access_level_some "L1" l1 (row_of address size1 assoc1 blocksize1)
    (tag_of address size1 assoc1 blocksize1) index address st row1 hrow1 hne1
  obtain ⟨bl2, hu2, -, hacc2⟩ := access_level_some "L2" l2 (row_of address size2 assoc2 blocksize2)
    (tag_of address size2 assoc2 blocksize2) index address st row2 hrow2 hne2
  refine ⟨row1, bl1, row2, bl2, hrow1, hne1, hu1, hrow2, hne2, hu2, ?_⟩
  rw [simulate_two_level address index l1 l2 size1 assoc1 blocksize1 size2 assoc2 blocksize2 st
    hg1 hg2 haddr, hacc1]
  by_cases hcond : (!decide (tag_of address size1 assoc1 blocksize1 ∈ row_tags row1) || st) = true
  · simp only [hcond, if_true, hacc2]
    rfl
  · simp only [hcond, if_false]
    rfl

/-! ## The first load of a fresh cache -/

theorem fresh_row_tags (size assoc blocksize : Int) (r : Nat) (row : Row)
    (hrow : (fresh_level size assoc blocksize).rows_vec[r]? = some row) :
    row_tags row = List.replicate assoc.toNat 65535 := by
  have hmem : row ∈ (fresh_level size assoc blocksize).rows_vec := List.getElem?_mem hrow
  have hrow' := List.eq_of_mem_replicate hmem
  subst hrow'
  simp [row_tags]

theorem main_cache_one {size assoc blocksize : Int} (hg : valid_geometry size assoc blocksize) :
    main_cache [size, assoc, blocksize]
      = some { levels_vec := [fresh_level size assoc blocksize] } := by
  unfold main_cache
  simp only [main_level_valid hg]

theorem main_cache_two {s1 a1 b1 s2 a2 b2 : Int} (hg1 : valid_geometry s1 a1 b1)
    (hg2 : valid_geometry s2 a2 b2) :
    main_cache [s1, a1, b1, s2, a2, b2]
      = some { levels_vec := [fresh_level s1 a1 b1, fresh_level s2 a2 b2] } := by
  unfold main_cache
  simp only [main_level_valid hg1, main_level_valid hg2]

theorem mru_block_zero (l : Level) (others : List Level) (r : Nat) (row new : Row)
    (bl : List Block) (t : Nat) (hrow : l.rows_vec[r]? = some row)
    (hu : update_blocks row.blocks_vec t = some bl) :
    mru_block { levels_vec := with_row l r new bl :: others } 0 r = some { tag := t } := by
  simp only [mru_block, List.getElem?_cons_zero, with_row_getElem?_self l r row new bl hrow]
  exact update_blocks_last _ _ t hu

/-- C14: for one or two valid geometries and an address below 8192, the tag
that `simulate_cache_access` computes is `(address / blocksize) / rows`, which
is never the sentinel 65535; on the cache that `main` has just built a load
prints exactly one entry for L1, a MISS at row `(address / blocksize) mod
rows`, and afterwards the last (most recently used) block of that row holds
that tag. -/
theorem fresh_load_misses (size assoc blocksize : Int) (rest : List Int) (address index : Nat)
    (hv : valid_parts (size :: assoc :: blocksize :: rest)) (haddr : address < 8192) :
    row_and_tag address size assoc blocksize
      = some ((address / blocksize.toNat) % num_rows size assoc blocksize,
          (address / blocksize.toNat) / num_rows size assoc blocksize) ∧
    (address / blocksize.toNat) / num_rows size assoc blocksize ≠ 65535 ∧
    ((main_cache (size :: assoc :: blocksize :: rest)).bind
        (fun c => simulate_cache_access address index c (size :: assoc :: blocksize :: rest)
          false)).map
      (fun r => (r.2.filter (fun e => e.cache_name = "L1"),
        mru_block r.1 0 ((address / blocksize.toNat) % num_rows size assoc blocksize)))
      = some ([print_log_entry "L1" "MISS" index address
                ((address / blocksize.toNat) % num_rows size assoc blocksize)],
          some { tag := (address / blocksize.toNat) / num_rows size assoc blocksize }) := by
  have e1 : address / blocksize.toNat % num_rows size assoc blocksize
      = row_of address size assoc blocksize := rfl
  have e2 : address / blocksize.toNat / num_rows size assoc blocksize
      = tag_of address size assoc blocksize := rfl
  rw [e1, e2]
  have htag : tag_of address size assoc blocksize ≠ 65535 := by
    have := tag_of_le address size assoc blocksize
    omega
  have hmiss : ∀ (r : Nat) (row : Row), (fresh_level size assoc blocksize).rows_vec[r]? = some row →
      tag_of address size assoc blocksize ∉ row_tags row := by
    intro r row hrow hmem
    rw [fresh_row_tags size assoc blocksize r row hrow] at hmem
    exact htag (List.eq_of_mem_replicate hmem)
  unfold valid_parts at hv
  split at hv
  · next s1 a1 b1 heq =>
    simp only [List.cons.injEq, and_true] at heq
    obtain ⟨rfl, rfl, rfl, rfl⟩ := heq
    refine ⟨row_and_tag_valid address hv (by omega), htag, ?_⟩
    obtain ⟨row, bl, hrow, -, hu, hsim⟩ := simulate_spec_one address index
      (fresh_level size assoc blocksize) size assoc blocksize false hv
      (fresh_level_shaped size assoc blocksize) (by omega)
    rw [main_cache_one hv, Option.some_bind, hsim]
    simp only [Option.map_some', decide_eq_false (hmiss _ row hrow), status_of]
    rw [mru_block_zero _ _ _ row row bl _ hrow hu]
    rfl
  · next s1 a1 b1 s2 a2 b2 heq =>
    simp only [List.cons.injEq, and_true] at heq
    obtain ⟨rfl, rfl, rfl, rfl⟩ := heq
    refine ⟨row_and_tag_valid address hv.1 (by omega), htag, ?_⟩
    obtain ⟨row1, bl1, row2, bl2, hrow1, -, hu1, hrow2, -, hu2, hsim⟩ := simulate_spec_two
      address index (fresh_level size assoc blocksize) (fresh_level s2 a2 b2)
      size assoc blocksize s2 a2 b2 false hv.1 hv.2
      (fresh_level_shaped size assoc blocksize) (fresh_level_shaped s2 a2 b2) (by omega)
    rw [main_cache_two hv.1 hv.2, Option.some_bind, hsim]
    simp only [Option.map_some', decide_eq_false (hmiss _ row1 hrow1), status_of,
      Bool.not_false, Bool.true_or, if_true]
    rw [mru_block_zero _ _ _ row1 row1 bl1 _ hrow1 hu1]
    rfl
  · exact absurd hv id

/-- C14 at the concrete input of the specification: configuration 64,1,4 and
address 0 give one L1 MISS at row 0 and leave tag 0 in row 0. -/
theorem fresh_load_misses_witness :
    ((main_cache [64, 1, 4]).bind
        (fun c => simulate_cache_access 0 0 c [64, 1, 4] false)).map
      (fun r => (r.2.filter (fun e => e.cache_name = "L1"), mru_block r.1 0 0))
      = some ([print_log_entry "L1" "MISS" 0 0 0], some { tag := 0 }) :=
  (fresh_load_misses 64 1 4 [] 0 0 (by decide) (by decide)).2.2


/-! ## Row and tag, level by level -/

theorem l2_row_and_tag_valid (address : Nat) (s1 a1 b1 : Int) {s2 a2 b2 : Int}
    (hg2 : valid_geometry s2 a2 b2) (haddr : address < 65536) :
    l2_row_and_tag address [s1, a1, b1, s2, a2, b2]
      = some (row_of address s2 a2 b2, tag_of address s2 a2 b2) := by
  simp only [l2_row_and_tag, List.length_cons, List.length_nil, if_true,
    List.getElem?_cons_zero, List.getElem?_cons_succ, Option.bind_eq_bind, Option.some_bind,
    row_and_tag_valid address hg2 haddr]

theorem row_formula (address : Nat) (size assoc blocksize : Int) :
    address / blocksize.toNat % num_rows size assoc blocksize
      = row_of address size assoc blocksize := rfl

theorem tag_formula (address : Nat) (size assoc blocksize : Int) :
    address / blocksize.toNat / num_rows size assoc blocksize
      = tag_of address size assoc blocksize := rfl

/-- C17: for valid geometries (integers positive and below 2^16 that give at
least one row per level) and every 16-bit address, each entry printed by
`simulate_cache_access` carries the row `(address / blocksize) mod rows` of
its own level, and the block pushed at the back of that row carries the tag
`(address / blocksize) / rows` of that level, with
`rows = size / (associativity * blocksize)`; the row and tag of L2 are
computed from the address and the L2 integers alone, whatever L1 and the
cache hold, so that two stores to one address, in any two cache states,
print the same L1 row and the same L2 row. -/
theorem row_and_tag_per_level (address index : Nat) (st : Bool) (haddr : address < 65536) :
    (∀ (l1 : Level) (size assoc blocksize : Int), valid_geometry size assoc blocksize →
      level_shaped size assoc blocksize l1 →
      row_and_tag address size assoc blocksize
        = some ((address / blocksize.toNat) % num_rows size assoc blocksize,
            (address / blocksize.toNat) / num_rows size assoc blocksize) ∧
      ∃ c' status, simulate_cache_access address index { levels_vec := [l1] }
          [size, assoc, blocksize] st
          = some (c', [print_log_entry "L1" status index address
              ((address / blocksize.toNat) % num_rows size assoc blocksize)]) ∧
        mru_block c' 0 ((address / blocksize.toNat) % num_rows size assoc blocksize)
          = some { tag := (address / blocksize.toNat) / num_rows size assoc blocksize }) ∧
    (∀ (l1 l2 m1 m2 : Level) (index2 : Nat) (s1 a1 b1 s2 a2 b2 : Int),
      valid_geometry s1 a1 b1 → valid_geometry s2 a2 b2 →
      level_shaped s1 a1 b1 l1 → level_shaped s2 a2 b2 l2 →
      level_shaped s1 a1 b1 m1 → level_shaped s2 a2 b2 m2 →
      row_and_tag address s1 a1 b1
        = some ((address / b1.toNat) % num_rows s1 a1 b1,
            (address / b1.toNat) / num_rows s1 a1 b1) ∧
      l2_row_and_tag address [s1, a1, b1, s2, a2, b2]
        = some ((address / b2.toNat) % num_rows s2 a2 b2,
            (address / b2.toNat) / num_rows s2 a2 b2) ∧
      (∃ c' status1 tail, simulate_cache_access address index { levels_vec := [l1, l2] }
          [s1, a1, b1, s2, a2, b2] st
          = some (c', print_log_entry "L1" status1 index address
              ((address / b1.toNat) % num_rows s1 a1 b1) :: tail) ∧
        mru_block c' 0 ((address / b1.toNat) % num_rows s1 a1 b1)
          = some { tag := (address / b1.toNat) / num_rows s1 a1 b1 } ∧
        (tail = [] ∨
          ∃ status2, tail = [print_log_entry "L2" status2 index address
              ((address / b2.toNat) % num_rows s2 a2 b2)] ∧
            mru_block c' 1 ((address / b2.toNat) % num_rows s2 a2 b2)
              = some { tag := (address / b2.toNat) / num_rows s2 a2 b2 })) ∧
      (simulate_cache_access address index { levels_vec := [l1, l2] }
          [s1, a1, b1, s2, a2, b2] true).map (fun r => r.2.map (fun e => (e.cache_name, e.row)))
        = some [("L1", (address / b1.toNat) % num_rows s1 a1 b1),
                ("L2", (address / b2.toNat) % num_rows s2 a2 b2)] ∧
      (simulate_cache_access address index2 { levels_vec := [m1, m2] }
          [s1, a1, b1, s2, a2, b2] true).map (fun r => r.2.map (fun e => (e.cache_name, e.row)))
        = some [("L1", (address / b1.toNat) % num_rows s1 a1 b1),
                ("L2", (address / b2.toNat) % num_rows s2 a2 b2)]) := by
  simp only [row_formula, tag_formula]
  constructor
  · intro l1 size assoc blocksize hg hs
    refine ⟨row_and_tag_valid address hg haddr, ?_⟩
    obtain ⟨row, bl, hrow, -, hu, hsim⟩ := simulate_spec_one address index l1 size assoc
      blocksize st hg hs haddr
    exact ⟨_, _, hsim, mru_block_zero _ _ _ row row bl _ hrow hu⟩
  · intro l1 l2 m1 m2 index2 s1 a1 b1 s2 a2 b2 hg1 hg2 hs1 hs2 hm1 hm2
    refine ⟨row_and_tag_valid address hg1 haddr, l2_row_and_tag_valid address s1 a1 b1 hg2 haddr,
      ?_, ?_, ?_⟩
    · obtain ⟨row1, bl1, row2, bl2, hrow1, -, hu1, hrow2, -, hu2, hsim⟩ := simulate_spec_two
        address index l1 l2 s1 a1 b1 s2 a2 b2 st hg1 hg2 hs1 hs2 haddr
      by_cases hcond : (!decide (tag_of address s1 a1 b1 ∈ row_tags row1) || st) = true
      · rw [if_pos hcond] at hsim
        refine ⟨_, _, _, hsim, mru_block_zero _ _ _ row1 row1 bl1 _ hrow1 hu1, Or.inr ⟨_, rfl, ?_⟩⟩
        simp only [mru_block, List.getElem?_cons_succ, List.getElem?_cons_zero,
          with_row_getElem?_self l2 _ row2 row2 bl2 hrow2]
        exact update_blocks_last _ _ _ hu2
      · rw [if_neg hcond] at hsim
        exact ⟨_, _, _, hsim, mru_block_zero _ _ _ row1 row1 bl1 _ hrow1 hu1, Or.inl rfl⟩
    · obtain ⟨row1, bl1, row2, bl2, -, -, -, -, -, -, hsim⟩ := simulate_spec_two
        address index l1 l2 s1 a1 b1 s2 a2 b2 true hg1 hg2 hs1 hs2 haddr
      rw [hsim]
      simp only [Bool.or_true, if_true, Option.map_some', List.map_cons, List.map_nil]
      rfl
    · obtain ⟨row1, bl1, row2, bl2, -, -, -, -, -, -, hsim⟩ := simulate_spec_two
        address index2 m1 m2 s1 a1 b1 s2 a2 b2 true hg1 hg2 hm1 hm2 haddr
      rw [hsim]
      simp only [Bool.or_true, if_true, Option.map_some', List.map_cons, List.map_nil]
      rfl

/-- C17 at the concrete input of the specification: configuration
16,1,4,64,1,4; two stores to address 5, one on the fresh cache and one on a
cache that already holds the line, print row 1 for L1 and row 1 for L2 both
times. -/
theorem row_and_tag_per_level_witness :
    (simulate_cache_access 5 0 { levels_vec := [fresh_level 16 1 4, fresh_level 64 1 4] }
        [16, 1, 4, 64, 1, 4] true).map (fun r => r.2.map (fun e => (e.cache_name, e.row)))
      = some [("L1", 1), ("L2", 1)] ∧
    (simulate_cache_access 5 1
        { levels_vec := [
            { rows_vec := { blocks_vec := [{}], associativity := 1 } ::
                { blocks_vec := [{ tag := 0 }], associativity := 1 } ::
                List.replicate 2 { blocks_vec := [{}], associativity := 1 },
              blocksize := 4 },
            { rows_vec := { blocks_vec := [{}], associativity := 1 } ::
                { blocks_vec := [{ tag := 0 }], associativity := 1 } ::
                List.replicate 14 { blocks_vec := [{}], associativity := 1 },
              blocksize := 4 }] }
        [16, 1, 4, 64, 1, 4] true).map (fun r => r.2.map (fun e => (e.cache_name, e.row)))
      = some [("L1", 1), ("L2", 1)] :=
  ((row_and_tag_per_level 5 0 true (by decide)).2
    (fresh_level 16 1 4) (fresh_level 64 1 4)
    { rows_vec := { blocks_vec := [{}], associativity := 1 } ::
        { blocks_vec := [{ tag := 0 }], associativity := 1 } ::
        List.replicate 2 { blocks_vec := [{}], associativity := 1 },
      blocksize := 4 }
    { rows_vec := { blocks_vec := [{}], associativity := 1 } ::
        { blocks_vec := [{ tag := 0 }], associativity := 1 } ::
        List.replicate 14 { blocks_vec := [{}], associativity := 1 },
      blocksize := 4 }
    1 16 1 4 64 1 4 (by decide) (by decide) (by decide) (by decide) (by decide)
    (by decide)).2.2.2


/-! ## What an access leaves unchanged -/

/-- C18: in a two-level cache of the shape of its configuration every access
returns; a load finds its tag in the addressed L1 row exactly when it prints
the single entry L1 HIT, and then the whole second level is left as it was;
every access, load or store, leaves every L1 row other than the addressed L1
row and every L2 row other than the addressed L2 row as it was. -/
theorem l1_hit_leaves_l2 (address index : Nat) (st : Bool) (l1 l2 : Level)
    (s1 a1 b1 s2 a2 b2 : Int)
    (hg1 : valid_geometry s1 a1 b1) (hg2 : valid_geometry s2 a2 b2)
    (hs1 : level_shaped s1 a1 b1 l1) (hs2 : level_shaped s2 a2 b2 l2)
    (haddr : address < 65536) :
    ∃ row1 l1new l2new entries,
      l1.rows_vec[row_of address s1 a1 b1]? = some row1 ∧
      simulate_cache_access address index { levels_vec := [l1, l2] }
          [s1, a1, b1, s2, a2, b2] st
        = some ({ levels_vec := [l1new, l2new] }, entries) ∧
      ((st = false ∧ tag_of address s1 a1 b1 ∈ row_tags row1) ↔
        entries = [print_log_entry "L1" "HIT" index address (row_of address s1 a1 b1)]) ∧
      (entries = [print_log_entry "L1" "HIT" index address (row_of address s1 a1 b1)] →
        l2new = l2) ∧
      (∀ r, r ≠ row_of address s1 a1 b1 → l1new.rows_vec[r]? = l1.rows_vec[r]?) ∧
      (∀ r, r ≠ row_of address s2 a2 b2 → l2new.rows_vec[r]? = l2.rows_vec[r]?) := by
  obtain ⟨row1, bl1, row2, bl2, hrow1, -, hu1, hrow2, -, hu2, hsim⟩ := simulate_spec_two
    address index l1 l2 s1 a1 b1 s2 a2 b2 st hg1 hg2 hs1 hs2 haddr
  have hL1 : ∀ r, r ≠ row_of address s1 a1 b1 →
      (with_row l1 (row_of address s1 a1 b1) row1 bl1).rows_vec[r]? = l1.rows_vec[r]? :=
    fun r hr => with_row_getElem?_ne l1 _ r row1 bl1 hr
  have hL2 : ∀ r, r ≠ row_of address s2 a2 b2 →
      (with_row l2 (row_of address s2 a2 b2) row2 bl2).rows_vec[r]? = l2.rows_vec[r]? :=
    fun r hr => with_row_getElem?_ne l2 _ r row2 bl2 hr
  by_cases hfound : tag_of address s1 a1 b1 ∈ row_tags row1
  · cases st with
    | false =>
      simp only [decide_eq_true hfound, Bool.not_true, Bool.or_false, Bool.false_eq_true,
        if_false, status_of, if_true] at hsim
      exact ⟨row1, _, _, _, hrow1, hsim, ⟨fun _ => rfl, fun _ => ⟨rfl, hfound⟩⟩,
        fun _ => rfl, hL1, fun r _ => rfl⟩
    | true =>
      simp only [Bool.or_true, if_true, status_of] at hsim
      refine ⟨row1, _, _, _, hrow1, hsim, ⟨?_, ?_⟩, ?_, hL1, hL2⟩
      · rintro ⟨h, -⟩
        cases h
      · intro h
        simp at h
      · intro h
        simp at h
  · cases st with
    | false =>
      simp only [decide_eq_false hfound, Bool.not_false, Bool.true_or, if_true, status_of,
        Bool.false_eq_true, if_false] at hsim
      refine ⟨row1, _, _, _, hrow1, hsim, ⟨?_, ?_⟩, ?_, hL1, hL2⟩
      · rintro ⟨-, h⟩
        exact absurd h hfound
      · intro h
        simp at h
      · intro h
        simp at h
    | true =>
      simp only [Bool.or_true, if_true, status_of] at hsim
      refine ⟨row1, _, _, _, hrow1, hsim, ⟨?_, ?_⟩, ?_, hL1, hL2⟩
      · rintro ⟨h, -⟩
        cases h
      · intro h
        simp at h
      · intro h
        simp at h

/-- C18 at a concrete input: configuration 16,1,4,64,1,4, a load of address 5
on a cache whose L1 row 1 holds tag 0 while L2 is still empty. -/
theorem l1_hit_leaves_l2_witness :
    ∃ row1 l1new l2new entries,
      (List.replicate 4 ({ blocks_vec := [{ tag := 0 }], associativity := 1 } : Row))[1]?
        = some row1 ∧
      simulate_cache_access 5 7
          { levels_vec := [
              { rows_vec := List.replicate 4 { blocks_vec := [{ tag := 0 }], associativity := 1 },
                blocksize := 4 },
              fresh_level 64 1 4] }
          [16, 1, 4, 64, 1, 4] false
        = some ({ levels_vec := [l1new, l2new] }, entries) ∧
      ((false = false ∧ 0 ∈ row_tags row1) ↔ entries = [print_log_entry "L1" "HIT" 7 5 1]) ∧
      (entries = [print_log_entry "L1" "HIT" 7 5 1] → l2new = fresh_level 64 1 4) ∧
      (∀ r, r ≠ 1 → l1new.rows_vec[r]?
        = (List.replicate 4 ({ blocks_vec := [{ tag := 0 }], associativity := 1 } : Row))[r]?) ∧
      (∀ r, r ≠ 1 → l2new.rows_vec[r]? = (fresh_level 64 1 4).rows_vec[r]?) :=
  l1_hit_leaves_l2 5 7 false
    { rows_vec := List.replicate 4 { blocks_vec := [{ tag := 0 }], associativity := 1 },
      blocksize := 4 }
    (fresh_level 64 1 4) 16 1 4 64 1 4 (by decide) (by decide) (by decide) (by decide)
    (by decide)


/-! ## Every index stays in bounds -/

theorem cache_shaped_one {s a b : Int} {c : Cache} (h : cache_shaped [s, a, b] c) :
    ∃ l1, c.levels_vec = [l1] ∧ valid_geometry s a b ∧ level_shaped s a b l1 := by
  unfold cache_shaped at h
  split at h
  · next s1 a1 b1 l1 hp hl =>
    simp only [List.cons.injEq, and_true] at hp
    obtain ⟨rfl, rfl, rfl⟩ := hp
    exact ⟨l1, hl, h.1, h.2⟩
  · next hp _ => simp at hp
  · exact absurd h id

theorem cache_shaped_two {s1 a1 b1 s2 a2 b2 : Int} {c : Cache}
    (h : cache_shaped [s1, a1, b1, s2, a2, b2] c) :
    ∃ l1 l2, c.levels_vec = [l1, l2] ∧ valid_geometry s1 a1 b1 ∧ level_shaped s1 a1 b1 l1 ∧
      valid_geometry s2 a2 b2 ∧ level_shaped s2 a2 b2 l2 := by
  unfold cache_shaped at h
  split at h
  · next hp _ => simp at hp
  · next t1 u1 v1 t2 u2 v2 l1 l2 hp hl =>
    simp only [List.cons.injEq, and_true] at hp
    obtain ⟨rfl, rfl, rfl, rfl, rfl, rfl⟩ := hp
    exact ⟨l1, l2, hl, h.1, h.2.1, h.2.2.1, h.2.2.2⟩
  · exact absurd h id

theorem main_cache_shaped (parts : List Int) (hv : valid_parts parts) :
    ∃ c0, main_cache parts = some c0 ∧ cache_shaped parts c0 := by
  unfold valid_parts at hv
  split at hv
  · next s1 a1 b1 =>
    exact ⟨_, main_cache_one hv, hv, fresh_level_shaped s1 a1 b1⟩
  · next s1 a1 b1 s2 a2 b2 =>
    exact ⟨_, main_cache_two hv.1 hv.2, hv.1, fresh_level_shaped s1 a1 b1, hv.2,
      fresh_level_shaped s2 a2 b2⟩
  · exact absurd hv id

theorem run_accesses_shaped (parts : List Int) (accs : List Access) (c : Cache)
    (hc : cache_shaped parts c) (haccs : ∀ x ∈ accs, x.address < 65536) :
    ∃ c', run_accesses parts accs c = some c' ∧ cache_shaped parts c' := by
  induction accs generalizing c with
  | nil => exact ⟨c, rfl, hc⟩
  | cons x rest ih =>
    obtain ⟨c1, entries, hsim, hc1⟩ := simulate_defined x.address x.index c parts
      x.is_store_word hc (haccs x (List.mem_cons_self _ _))
    obtain ⟨c2, hrun, hc2⟩ := ih c1 hc1 (fun y hy => haccs y (List.mem_cons_of_mem _ hy))
    refine ⟨c2, ?_, hc2⟩
    unfold run_accesses
    rw [hsim]
    exact hrun

/-- C19: for a configuration of 3 or 6 integers, all positive and below 2^16
with `size >= associativity * blocksize` at each level, `main` builds a
cache, every sequence of accesses with 16-bit addresses is defined on it, and
in the cache so reached, for every 16-bit address, the row number that
`simulate_cache_access` recomputes from the configuration integers is defined
(no division by zero, no overflow), is below the number of rows of the
level, and names a row with at least one block, for L1 and for L2; the access
itself is defined, which says that every index and every erase is in
bounds. -/
theorem access_in_bounds (parts : List Int) (accs : List Access) (address index : Nat)
    (st : Bool) (hv : valid_parts parts) (haccs : ∀ x ∈ accs, x.address < 65536)
    (haddr : address < 65536) :
    ∃ c, final_cache parts accs = some c ∧
      (simulate_cache_access address index c parts st).isSome = true ∧
      (∀ size assoc blocksize, parts = [size, assoc, blocksize] →
        ∃ l1 r t row, c.levels_vec = [l1] ∧
          row_and_tag address size assoc blocksize = some (r, t) ∧
          r < l1.rows_vec.length ∧ l1.rows_vec[r]? = some row ∧ row.blocks_vec ≠ []) ∧
      (∀ s1 a1 b1 s2 a2 b2, parts = [s1, a1, b1, s2, a2, b2] →
        ∃ l1 l2 r1 t1 row1 r2 t2 row2, c.levels_vec = [l1, l2] ∧
          row_and_tag address s1 a1 b1 = some (r1, t1) ∧
          r1 < l1.rows_vec.length ∧ l1.rows_vec[r1]? = some row1 ∧ row1.blocks_vec ≠ [] ∧
          l2_row_and_tag address parts = some (r2, t2) ∧
          r2 < l2.rows_vec.length ∧ l2.rows_vec[r2]? = some row2 ∧ row2.blocks_vec ≠ []) := by
  obtain ⟨c0, hmain, hc0⟩ := main_cache_shaped parts hv
  obtain ⟨c, hrun, hc⟩ := run_accesses_shaped parts accs c0 hc0 haccs
  obtain ⟨c', entries, hsim, -⟩ := simulate_defined address index c parts st hc haddr
  refine ⟨c, ?_, ?_, ?_, ?_⟩
  · unfold final_cache
    rw [hmain]
    exact hrun
  · rw [hsim]
    rfl
  · rintro size assoc blocksize rfl
    obtain ⟨l1, hl, hg, hs⟩ := cache_shaped_one hc
    obtain ⟨row, hrow, hne⟩ := shaped_row address hg hs
    refine ⟨l1, _, _, row, hl, row_and_tag_valid address hg haddr, ?_, hrow, hne⟩
    rw [hs.1]
    exact row_of_lt address hg
  · rintro s1 a1 b1 s2 a2 b2 rfl
    obtain ⟨l1, l2, hl, hg1, hs1, hg2, hs2⟩ := cache_shaped_two hc
    obtain ⟨row1, hrow1, hne1⟩ := shaped_row address hg1 hs1
    obtain ⟨row2, hrow2, hne2⟩ := shaped_row address hg2 hs2
    refine ⟨l1, l2, _, _, row1, _, _, row2, hl, row_and_tag_valid address hg1 haddr, ?_, hrow1,
      hne1, l2_row_and_tag_valid address s1 a1 b1 hg2 haddr, ?_, hrow2, hne2⟩
    · rw [hs1.1]
      exact row_of_lt address hg1
    · rw [hs2.1]
      exact row_of_lt address hg2

/-- C19 at a concrete input: configuration 16,2,4,64,1,4 after a store to
address 65535, then a load of address 40000. -/
theorem access_in_bounds_witness :
    ∃ c, final_cache [16, 2, 4, 64, 1, 4] [⟨65535, 0, true⟩] = some c ∧
      (simulate_cache_access 40000 1 c [16, 2, 4, 64, 1, 4] false).isSome = true ∧
      (∀ size assoc blocksize, [16, 2, 4, 64, 1, 4] = [size, assoc, blocksize] →
        ∃ l1 r t row, c.levels_vec = [l1] ∧
          row_and_tag 40000 size assoc blocksize = some (r, t) ∧
          r < l1.rows_vec.length ∧ l1.rows_vec[r]? = some row ∧ row.blocks_vec ≠ []) ∧
      (∀ s1 a1 b1 s2 a2 b2, [16, 2, 4, 64, 1, 4] = [s1, a1, b1, s2, a2, b2] →
        ∃ l1 l2 r1 t1 row1 r2 t2 row2, c.levels_vec = [l1, l2] ∧
          row_and_tag 40000 s1 a1 b1 = some (r1, t1) ∧
          r1 < l1.rows_vec.length ∧ l1.rows_vec[r1]? = some row1 ∧ row1.blocks_vec ≠ [] ∧
          l2_row_and_tag 40000 [16, 2, 4, 64, 1, 4] = some (r2, t2) ∧
          r2 < l2.rows_vec.length ∧ l2.rows_vec[r2]? = some row2 ∧ row2.blocks_vec ≠ []) :=
  access_in_bounds [16, 2, 4, 64, 1, 4] [⟨65535, 0, true⟩] 40000 1 false (by decide)
    (by decide) (by decide)


/-! ## `main` without a cache configuration -/

/-- What one pass does to register 0, for every instruction. -/
theorem loop_body_regs0 (parts : List Int) (s t : State) (h : loop_body parts s = some t) :
    t.regs_arr 0 =
      if opcode (fetch s) = 0 ∨ opcode (fetch s) = 1 ∨ opcode (fetch s) = 4 ∨
          opcode (fetch s) = 7 then 0 else s.regs_arr 0 := by
  rcases opcode_cases (fetch s) with h0 | h1 | h2 | h3 | h4 | h5 | h6 | h7 | h8
  · rcases bits0_3_cases (fetch s) with f | f | f | f | f | f | ⟨f0, f1, f2, f3, f4, f8⟩
    · rw [loop_body_add parts s h0 f] at h
      cases h
      simp [h0, store_same]
    · rw [loop_body_sub parts s h0 f] at h
      cases h
      simp [h0, store_same]
    · rw [loop_body_or parts s h0 f] at h
      cases h
      simp [h0, store_same]
    · rw [loop_body_and parts s h0 f] at h
      cases h
      simp [h0, store_same]
    · rw [loop_body_slt parts s h0 f] at h
      cases h
      simp [h0, store_same]
    · rw [loop_body_jr parts s h0 f] at h
      cases h
      simp [h0, store_same]
    · rw [loop_body_unlisted parts s h0 f0 f1 f2 f3 f4 f8] at h
      cases h
      simp [h0, store_same]
  · rw [loop_body_addi parts s h1] at h
    cases h
    simp [h1, store_same]
  · rw [loop_body_j parts s h2] at h
    cases h
    simp [h2]
  · rw [loop_body_jal parts s h3] at h
    cases h
    simp [h3, store_other]
  · rw [loop_body_lw parts s h4] at h
    split at h
    · cases h
    · cases h
      simp [h4, store_same]
  · rw [loop_body_sw parts s h5] at h
    split at h
    · cases h
    · cases h
      simp [h5]
  · rw [loop_body_jeq parts s h6] at h
    cases h
    simp [h6]
  · rw [loop_body_slti parts s h7] at h
    cases h
    simp [h7, store_same]
  · rw [loop_body_no_opcode parts s h8] at h
    cases h
    have e0 : ¬ opcode (fetch s) = 0 := by omega
    have e1 : ¬ opcode (fetch s) = 1 := by omega
    have e4 : ¬ opcode (fetch s) = 4 := by omega
    have e7 : ¬ opcode (fetch s) = 7 := by omega
    simp [e0, e1, e4, e7]

/-- C16, the claim as stated fails: with 7 in register 0, the pass that
executes `j 5` leaves 7 in register 0. -/
theorem register_zero_forced_counterexample :
    (opcode (fetch dirty_zero_state), dirty_zero_state.regs_arr 0) = (2, 7) ∧
    (loop_body [64, 1, 4] dirty_zero_state).map (fun t => t.regs_arr 0) = some 7 := by
  constructor <;> decide

/-- C16, amended: whatever register 0 holds before, it holds 0 after one pass
that executes an opcode-0 instruction, an `addi`, an `lw` or an `slti`; a
pass that executes a `j`, a `jal`, an `sw` or a `jeq` leaves register 0 as it
was, so that it holds 0 after the pass when it held 0 before; a 16-bit
instruction word has no other opcode. -/
theorem register_zero_forced (parts : List Int) (s t : State)
    (hstep : loop_body parts s = some t) :
    ((opcode (fetch s) = 0 ∨ opcode (fetch s) = 1 ∨ opcode (fetch s) = 4 ∨
        opcode (fetch s) = 7) → t.regs_arr 0 = 0) ∧
    ((opcode (fetch s) = 2 ∨ opcode (fetch s) = 3 ∨ opcode (fetch s) = 5 ∨
        opcode (fetch s) = 6) → t.regs_arr 0 = s.regs_arr 0) ∧
    (fetch s < 65536 → opcode (fetch s) ≤ 7) := by
  have h := loop_body_regs0 parts s t hstep
  refine ⟨?_, ?_, ?_⟩
  · intro hc
    rw [h, if_pos hc]
  · intro hc
    rw [h, if_neg (by omega)]
  · intro hlt
    unfold opcode
    rw [Nat.shiftRight_eq_div_pow]
    omega

/-- C16 (amended) at concrete inputs: `addi $0,$0,5` from the initial state,
and `j 5` with 7 in register 0. -/
theorem register_zero_forced_witness :
    ({ initial_state addi_zero_image { levels_vec := [fresh_level 64 1 4] } with
        regs_arr := store (store (fun _ => 0) 0 5) 0 0, pc := 1 } : State).regs_arr 0 = 0 ∧
    ({ dirty_zero_state with pc := 5 } : State).regs_arr 0 = dirty_zero_state.regs_arr 0 :=
  ⟨(register_zero_forced [64, 1, 4]
      (initial_state addi_zero_image { levels_vec := [fresh_level 64 1 4] }) _ rfl).1
      (by decide),
   (register_zero_forced [64, 1, 4] dirty_zero_state { dirty_zero_state with pc := 5 } rfl).2.1
      (by decide)⟩


/-! ## Repeating an access -/

theorem set_same {α : Type} (l : List α) (i : Nat) (x : α) (h : l[i]? = some x) :
    l.set i x = l := by
  induction l generalizing i with
  | nil => rfl
  | cons z zs ih =>
    cases i with
    | zero =>
      simp only [List.getElem?_cons_zero, Option.some.injEq] at h
      subst h
      rfl
    | succ j =>
      simp only [List.getElem?_cons_succ] at h
      simp [ih j h]

theorem find_tag_append_last (pre : List Block) (t : Nat) (h : t ∉ pre.map Block.tag) :
    find_tag (pre ++ [{ tag := t }]) t = some pre.length := by
  induction pre with
  | nil => simp [find_tag]
  | cons b bs ih =>
    simp only [List.map_cons, List.mem_cons, not_or] at h
    have hb : ¬ b.tag = t := fun e => h.1 e.symm
    simp [find_tag, hb, ih h.2]

/-- A row whose back block carries `t`, and no other block does, is left as
it is by an access with tag `t`. -/
theorem update_blocks_mru (pre : List Block) (t : Nat) (h : t ∉ pre.map Block.tag) :
    update_blocks (pre ++ [{ tag := t }]) t = some (pre ++ [{ tag := t }]) := by
  unfold update_blocks
  rw [find_tag_append_last pre t h]
  simp only [Option.some.injEq]
  rw [List.eraseIdx_append_of_length_le (Nat.le_refl _)]
  simp

theorem lru_order_snoc (a : Nat) (ha : 0 < a) (T : List Nat) (t : Nat) :
    ∃ Y, lru_order a (T ++ [t]) = Y ++ [t] ∧ t ∉ Y := by
  unfold lru_order last_n
  rw [keep_last_snoc]
  refine ⟨List.drop (((keep_last T).filter (fun x => x ≠ t) ++ [t]).length - a)
    ((keep_last T).filter (fun x => x ≠ t)), ?_, ?_⟩
  · apply List.drop_append_of_le_length
    simp only [List.length_append, List.length_singleton]
    omega
  · intro hm
    have := List.mem_of_mem_drop hm
    simp at this

theorem blocks_of_tags_snoc (bl : List Block) (Y : List Nat) (t : Nat)
    (h : bl.map Block.tag = Y ++ [t]) :
    ∃ P, bl = P ++ [{ tag := t }] ∧ P.map Block.tag = Y := by
  obtain ⟨l1, l2, rfl, h1, h2⟩ := List.map_eq_append_iff.1 h
  refine ⟨l1, ?_, h1⟩
  cases l2 with
  | nil => simp at h2
  | cons b rest =>
    cases rest with
    | nil =>
      simp only [List.map_cons, List.map_nil, List.cons.injEq, and_true] at h2
      cases b
      simp only at h2
      subst h2
      rfl
    | cons c more => simp at h2

/-- The first level after accesses that end with `x`: the row of `x` is left
as it is by a further access with the tag of `x`, which it holds. -/
theorem level_inv_repeat {size assoc blocksize : Int} {lvl : Level} {pre : List Access}
    (x : Access) (hg : valid_geometry size assoc blocksize)
    (hinv : level_inv size assoc blocksize lvl (pre ++ [x])) (hx : x.address < 8192)
    (name : String) (index : Nat) :
    access_level name lvl (row_of x.address size assoc blocksize)
        (tag_of x.address size assoc blocksize) index x.address false
      = some (lvl, print_log_entry name "HIT" index x.address
          (row_of x.address size assoc blocksize), true) := by
  have hapos : 0 < assoc.toNat := by have := hg.1; omega
  have ht : tag_of x.address size assoc blocksize ≠ 65535 := by
    have := tag_of_le x.address size assoc blocksize
    omega
  have hlt : row_of x.address size assoc blocksize < lvl.rows_vec.length := by
    rw [hinv.1]; exact row_of_lt _ hg
  have hrow : lvl.rows_vec[row_of x.address size assoc blocksize]?
      = some lvl.rows_vec[row_of x.address size assoc blocksize] := List.getElem?_eq_getElem hlt
  obtain ⟨htags, -⟩ := row_tags_of_lru_inv (hinv.2 _ _ hrow)
  rw [tags_to_row_snoc_same] at htags
  obtain ⟨Y, hY, hnot⟩ := lru_order_snoc assoc.toNat hapos
    (tags_to_row size assoc blocksize (row_of x.address size assoc blocksize) pre)
    (tag_of x.address size assoc blocksize)
  rw [hY, ← List.append_assoc] at htags
  obtain ⟨P, hP, hPY⟩ := blocks_of_tags_snoc _ _ _ htags
  have hnotP : tag_of x.address size assoc blocksize ∉ P.map Block.tag := by
    rw [hPY, List.mem_append]
    rintro (h | h)
    · exact ht (List.eq_of_mem_replicate h)
    · exact hnot h
  have hu := update_blocks_mru P _ hnotP
  rw [← hP] at hu
  have hmem : tag_of x.address size assoc blocksize
      ∈ row_tags lvl.rows_vec[row_of x.address size assoc blocksize] := by
    rw [htags]
    simp
  have hne : lvl.rows_vec[row_of x.address size assoc blocksize].blocks_vec ≠ [] := by
    rw [hP]
    simp
  obtain ⟨bl, hu', -, hacc⟩ := access_level_some name lvl (row_of x.address size assoc blocksize)
    (tag_of x.address size assoc blocksize) index x.address false _ hrow hne
  rw [hu] at hu'
  simp only [Option.some.injEq] at hu'
  subst hu'
  rw [hacc]
  simp only [decide_eq_true hmem, status_of, Bool.false_eq_true, if_false, if_true]
  have hset : lvl.rows_vec.set (row_of x.address size assoc blocksize)
      { lvl.rows_vec[row_of x.address size assoc blocksize] with
        blocks_vec := lvl.rows_vec[row_of x.address size assoc blocksize].blocks_vec }
      = lvl.rows_vec := set_same _ _ _ hrow
  rw [hset]

theorem final_cache_two_level {s1 a1 b1 s2 a2 b2 : Int} (hg1 : valid_geometry s1 a1 b1)
    (hg2 : valid_geometry s2 a2 b2) (accs : List Access)
    (haddr : ∀ x ∈ accs, x.address < 8192) :
    ∃ l1 l2, final_cache [s1, a1, b1, s2, a2, b2] accs = some { levels_vec := [l1, l2] } ∧
      level_inv s1 a1 b1 l1 accs ∧ level_shaped s2 a2 b2 l2 := by
  obtain ⟨l1, l2, hrun, hinv, hs⟩ := two_level_run hg1 hg2 accs haddr _ _ []
    (fresh_level_inv s1 a1 b1) (fresh_level_shaped s2 a2 b2)
  refine ⟨l1, l2, ?_, by simpa using hinv, hs⟩
  unfold final_cache
  rw [main_cache_two hg1 hg2]
  exact hrun

/-- C20: in the cache that `main` builds from one or two valid geometries, in
any state reached by accesses with addresses below 8192, after one more
access `x` (a load or a store, address below 8192) a load of the same address
prints the single entry L1 HIT, hence no entry for L2, and returns the very
cache it was given: every row of every level is as the access `x` left it. -/
theorem repeat_load_hits (size assoc blocksize : Int) (rest : List Int) (pre : List Access)
    (x : Access) (index : Nat) (hv : valid_parts (size :: assoc :: blocksize :: rest))
    (hpre : ∀ y ∈ pre, y.address < 8192) (hx : x.address < 8192) :
    ∃ c, final_cache (size :: assoc :: blocksize :: rest) (pre ++ [x]) = some c ∧
      simulate_cache_access x.address index c (size :: assoc :: blocksize :: rest) false
        = some (c, [print_log_entry "L1" "HIT" index x.address
            (row_of x.address size assoc blocksize)]) := by
  have haccs : ∀ y ∈ pre ++ [x], y.address < 8192 := by
    intro y hy
    rcases List.mem_append.1 hy with h | h
    · exact hpre y h
    · simp only [List.mem_singleton] at h
      rw [h]; exact hx
  unfold valid_parts at hv
  split at hv
  · next s1 a1 b1 heq =>
    simp only [List.cons.injEq, and_true] at heq
    obtain ⟨rfl, rfl, rfl, rfl⟩ := heq
    obtain ⟨lvl, hfin, hinv⟩ := final_cache_one_level hv (pre ++ [x]) haccs
    refine ⟨_, hfin, ?_⟩
    rw [simulate_one_level x.address index lvl size assoc blocksize false hv (by omega),
      level_inv_repeat x hv hinv hx "L1" index]
  · next s1 a1 b1 s2 a2 b2 heq =>
    simp only [List.cons.injEq, and_true] at heq
    obtain ⟨rfl, rfl, rfl, rfl⟩ := heq
    obtain ⟨l1, l2, hfin, hinv, -⟩ := final_cache_two_level hv.1 hv.2 (pre ++ [x]) haccs
    refine ⟨_, hfin, ?_⟩
    rw [simulate_two_level x.address index l1 l2 size assoc blocksize s2 a2 b2 false hv.1 hv.2
      (by omega), level_inv_repeat x hv.1 hinv hx "L1" index]
    rfl
  · exact absurd hv id

/-- C20 at a concrete input: configuration 16,2,4,64,1,4, the accesses 0, 8,
16 to L1 row 0, then a store to address 8 followed by a load of address 8. -/
theorem repeat_load_hits_witness :
    ∃ c, final_cache [16, 2, 4, 64, 1, 4]
        ([⟨0, 0, false⟩, ⟨8, 1, true⟩, ⟨16, 2, false⟩] ++ [⟨8, 3, true⟩]) = some c ∧
      simulate_cache_access 8 4 c [16, 2, 4, 64, 1, 4] false
        = some (c, [print_log_entry "L1" "HIT" 4 8 0]) :=
  repeat_load_hits 16 2 4 [64, 1, 4] [⟨0, 0, false⟩, ⟨8, 1, true⟩, ⟨16, 2, false⟩]
    ⟨8, 3, true⟩ 4 (by decide) (by decide) (by decide)

end E20
